import Mathlib

/-!
Verification of the crawl-and-merge pipeline of `crawl_dc.py`.

The Python source is shallowly embedded: every function of the pipeline
(`parse_date`, `extract_post_data`, the row/page loop of `crawl_posts`,
`get_week_info`, `organize_by_week`, `merge_and_save`) is translated into an
executable Lean definition.  HTML rows are modelled as records carrying the
attributes and cell texts the extractor reads; the HTTP fetch loop is modelled
as a list of fetch results (one per page, `none` standing for a transport
failure).  Python `datetime` values are modelled by a six-field record, and the
pieces of the `datetime` library the source calls (`strptime`, `strftime`,
`isocalendar`, `weekday`, `toordinal`) are embedded from their documented
(CPython) semantics.  Machine arithmetic is modelled with `Int`/`Nat`; Python
floor division and modulus on the positive divisors used here coincide with
Lean's `/` and `%` on `Int`.
-/

namespace DC

/-! ## Strings: the Python string operations the source uses

Python compares strings lexicographically by code point; `str.split(c)`,
`str.startswith`, membership (`in`) and `int(...)` are modelled below on the
character list of a `String`. -/

/-- Lexicographic strict comparison on characters by code point, the order
Python uses for `<` on `str`. -/
def lexLt : List Char → List Char → Bool
  | [], [] => false
  | [], _ :: _ => true
  | _ :: _, [] => false
  | a :: as, b :: bs =>
    if a.toNat < b.toNat then true
    else if b.toNat < a.toNat then false
    else lexLt as bs

/-- Python `a < b` on strings. -/
def strLt (a b : String) : Bool := lexLt a.data b.data

/-- Python `sep.split` for a single-character separator: accumulator version. -/
def splitChAux (c : Char) : List Char → List Char → List (List Char)
  | [], acc => [acc.reverse]
  | x :: xs, acc =>
    if x = c then acc.reverse :: splitChAux c xs []
    else splitChAux c xs (x :: acc)

/-- Python `s.split(c)` for a single-character separator. -/
def splitCh (c : Char) (l : List Char) : List (List Char) := splitChAux c l []

/-- Python `needle in hay` (substring containment). -/
def containsSub (hay needle : List Char) : Bool :=
  match hay with
  | [] => needle.isEmpty
  | _ :: t => needle.isPrefixOf hay || containsSub t needle

/-- Python `s.startswith(p)`. -/
def startsWithB (s p : String) : Bool := p.data.isPrefixOf s.data

/-- Python `s.strip('[]')`: remove leading and trailing `[` / `]`. -/
def stripSquares (l : List Char) : List Char :=
  ((l.dropWhile (fun c => c = '[' ∨ c = ']')).reverse.dropWhile
      (fun c => c = '[' ∨ c = ']')).reverse

/-- Numeric value of a decimal digit character. -/
def digitVal (c : Char) : ℕ := c.toNat - 48

/-- Python `int(s)` restricted to the plain decimal-digit strings that occur on
the listing pages: `none` models the `ValueError` branch. -/
def parseDigits : List Char → Option ℕ
  | [] => none
  | l => if l.all Char.isDigit then some (l.foldl (fun a c => a * 10 + digitVal c) 0) else none

/-- Python `s.isdigit()` for the ASCII-digit strings relevant here. -/
def isDigitsB (s : String) : Bool := !s.data.isEmpty && s.data.all Char.isDigit

/-! ## Decimal rendering, as Python `str(n)` / `format(n, '02d')` produce it -/

/-- Decimal digits of `n`, most significant first; the first argument is
structural fuel (any fuel above the digit count gives the same list). -/
def natDigitsAux : ℕ → ℕ → List Char
  | 0, _ => []
  | fuel + 1, n =>
    if n < 10 then [Nat.digitChar n]
    else natDigitsAux fuel (n / 10) ++ [Nat.digitChar (n % 10)]

/-- Decimal digits of `n`, most significant first. -/
def natDigits (n : ℕ) : List Char := natDigitsAux (n + 1) n

/-- Python `str(n)` for a natural number. -/
def fmtNat (n : ℕ) : String := ⟨natDigits n⟩

/-- Python `format(n, '0Nd')`: left-pad the decimal form with zeros to width `w`. -/
def padNat (w n : ℕ) : String :=
  ⟨List.replicate (w - (natDigits n).length) '0' ++ natDigits n⟩

/-- Python `str(z)` for an integer. -/
def intRepr (z : ℤ) : String :=
  if z < 0 then "-" ++ fmtNat z.natAbs else fmtNat z.natAbs

/-- Numeric value of a digit string, most significant first. -/
def digitsVal (l : List Char) : ℕ := l.foldl (fun a c => a * 10 + digitVal c) 0

/-! ## The `datetime` model

A Python `datetime` value, with the calendar functions of CPython's
`datetime` module that the source calls. -/

structure DateTime where
  year : ℤ
  month : ℤ
  day : ℤ
  hour : ℤ
  minute : ℤ
  second : ℤ
deriving DecidableEq

/-- CPython `_is_leap`. -/
def isLeap (y : ℤ) : Bool := y % 4 == 0 && (y % 100 != 0 || y % 400 == 0)

/-- CPython `_DAYS_IN_MONTH` (February as 28). -/
def daysInMonthRaw (m : ℤ) : ℤ :=
  if m = 2 then 28
  else if m = 4 ∨ m = 6 ∨ m = 9 ∨ m = 11 then 30 else 31

/-- CPython `_days_in_month`. -/
def daysInMonth (y m : ℤ) : ℤ :=
  if m = 2 ∧ isLeap y then 29 else daysInMonthRaw m

/-- CPython `_days_before_year`: days before January 1 of `y`. -/
def daysBeforeYear (y : ℤ) : ℤ :=
  (y - 1) * 365 + (y - 1) / 4 - (y - 1) / 100 + (y - 1) / 400

/-- CPython `_DAYS_BEFORE_MONTH`. -/
def dbmTable (m : ℤ) : ℤ :=
  if m = 1 then 0 else if m = 2 then 31 else if m = 3 then 59
  else if m = 4 then 90 else if m = 5 then 120 else if m = 6 then 151
  else if m = 7 then 181 else if m = 8 then 212 else if m = 9 then 243
  else if m = 10 then 273 else if m = 11 then 304 else 334

/-- CPython `_days_before_month`. -/
def daysBeforeMonth (y m : ℤ) : ℤ :=
  dbmTable m + (if 2 < m ∧ isLeap y then 1 else 0)

/-- CPython `_ymd2ord` applied to the date part: the proleptic Gregorian
ordinal, day 1 being 0001-01-01. -/
def DateTime.toOrd (t : DateTime) : ℤ :=
  daysBeforeYear t.year + daysBeforeMonth t.year t.month + t.day

/-- Ordinal of January 1 of year `y`. -/
def firstDayOrd (y : ℤ) : ℤ := daysBeforeYear y + 1

/-- Model of `date.weekday()` expressed on ordinals: Monday is 0. -/
def weekdayOrd (o : ℤ) : ℤ := (o + 6) % 7

/-- CPython `_isoweek1monday`: ordinal of the Monday starting ISO week 1 of `y`. -/
def isoweek1monday (y : ℤ) : ℤ :=
  if 3 < (firstDayOrd y + 6) % 7 then
    firstDayOrd y - (firstDayOrd y + 6) % 7 + 7
  else
    firstDayOrd y - (firstDayOrd y + 6) % 7

/-- CPython `date.isocalendar()` on a date of Gregorian year `gy` with ordinal
`o`: ISO year, ISO week, ISO weekday. -/
def isocalendarOrd (gy o : ℤ) : ℤ × ℤ × ℤ :=
  if (o - isoweek1monday gy) / 7 < 0 then
    (gy - 1, (o - isoweek1monday (gy - 1)) / 7 + 1, (o - isoweek1monday (gy - 1)) % 7 + 1)
  else if 52 ≤ (o - isoweek1monday gy) / 7 ∧ isoweek1monday (gy + 1) ≤ o then
    (gy + 1, 1, (o - isoweek1monday gy) % 7 + 1)
  else
    (gy, (o - isoweek1monday gy) / 7 + 1, (o - isoweek1monday gy) % 7 + 1)

/-- CPython `_ord2ymd`: year, month, day of a Gregorian ordinal. -/
def ord2ymd (n0 : ℤ) : ℤ × ℤ × ℤ :=
  let n1x := n0 - 1
  let n400 := n1x / 146097
  let r400 := n1x % 146097
  let n100 := r400 / 36524
  let r100 := r400 % 36524
  let n4 := r100 / 1461
  let r4 := r100 % 1461
  let n1 := r4 / 365
  let n := r4 % 365
  let year := n400 * 400 + 1 + n100 * 100 + n4 * 4 + n1
  if n1 = 4 ∨ n100 = 4 then (year - 1, 12, 31)
  else
    let leap := n1 == 3 && (n4 != 24 || n100 == 3)
    let month := (n + 50) / 32
    let preceding := dbmTable month + (if 2 < month ∧ leap then 1 else 0)
    if n < preceding then
      (year, month - 1,
        n - (preceding - (daysInMonthRaw (month - 1) + (if month - 1 = 2 ∧ leap then 1 else 0))) + 1)
    else (year, month, n - preceding + 1)

/-- The argument validity check of the `datetime` constructor
(`MINYEAR ≤ year ≤ MAXYEAR`, month, day, and time-of-day ranges). -/
def DateTime.ValidB (t : DateTime) : Bool :=
  1 ≤ t.year && t.year ≤ 9999 && 1 ≤ t.month && t.month ≤ 12 &&
  1 ≤ t.day && t.day ≤ daysInMonth t.year t.month &&
  0 ≤ t.hour && t.hour ≤ 23 && 0 ≤ t.minute && t.minute ≤ 59 &&
  0 ≤ t.second && t.second ≤ 59

/-- The `datetime(...)` constructor: `none` models the `ValueError` raised on
out-of-range components. -/
def mkValid (y mo d h mi s : ℤ) : Option DateTime :=
  if (⟨y, mo, d, h, mi, s⟩ : DateTime).ValidB then some ⟨y, mo, d, h, mi, s⟩ else none

/-- Python `datetime` comparison (`<=`): lexicographic on the components. -/
def dtLeB (a b : DateTime) : Bool :=
  if a.year ≠ b.year then a.year < b.year
  else if a.month ≠ b.month then a.month < b.month
  else if a.day ≠ b.day then a.day < b.day
  else if a.hour ≠ b.hour then a.hour < b.hour
  else if a.minute ≠ b.minute then a.minute < b.minute
  else a.second ≤ b.second

/-- Model of `strftime('%Y-%m-%d')`. -/
def fmtDate (t : DateTime) : String :=
  padNat 4 t.year.toNat ++ "-" ++ padNat 2 t.month.toNat ++ "-" ++ padNat 2 t.day.toNat

/-- Model of `strftime('%H:%M:%S')`. -/
def fmtTime (t : DateTime) : String :=
  padNat 2 t.hour.toNat ++ ":" ++ padNat 2 t.minute.toNat ++ ":" ++ padNat 2 t.second.toNat

/-- Model of `strftime('%Y-%m-%dT%H:%M:%S')`. -/
def fmtDateTime (t : DateTime) : String := fmtDate t ++ "T" ++ fmtTime t

/-- Model of `strftime('%Y-%m-%d')` of the date with ordinal `o`. -/
def fmtDateOrd (o : ℤ) : String :=
  match ord2ymd o with
  | (y, m, d) => padNat 4 y.toNat ++ "-" ++ padNat 2 m.toNat ++ "-" ++ padNat 2 d.toNat

/-- Model of `datetime.strptime(s, '%Y-%m-%d %H:%M:%S')` on the canonical forms the
site's `title` attribute carries. -/
def strptimeFull (s : String) : Option DateTime :=
  match s.data with
  | [y1, y2, y3, y4, '-', mo1, mo2, '-', d1, d2, ' ', h1, h2, ':', mi1, mi2, ':', se1, se2] =>
    if ([y1, y2, y3, y4, mo1, mo2, d1, d2, h1, h2, mi1, mi2, se1, se2].all Char.isDigit) then
      mkValid (1000 * digitVal y1 + 100 * digitVal y2 + 10 * digitVal y3 + digitVal y4)
        (10 * digitVal mo1 + digitVal mo2) (10 * digitVal d1 + digitVal d2)
        (10 * digitVal h1 + digitVal h2) (10 * digitVal mi1 + digitVal mi2)
        (10 * digitVal se1 + digitVal se2)
    else none
  | _ => none

/-- Model of `datetime.strptime(s, '%Y-%m-%dT%H:%M:%S')` on the canonical forms that
`strftime('%Y-%m-%dT%H:%M:%S')` writes into the archive. -/
def strptimeISO (s : String) : Option DateTime :=
  match s.data with
  | [y1, y2, y3, y4, '-', mo1, mo2, '-', d1, d2, 'T', h1, h2, ':', mi1, mi2, ':', se1, se2] =>
    if ([y1, y2, y3, y4, mo1, mo2, d1, d2, h1, h2, mi1, mi2, se1, se2].all Char.isDigit) then
      mkValid (1000 * digitVal y1 + 100 * digitVal y2 + 10 * digitVal y3 + digitVal y4)
        (10 * digitVal mo1 + digitVal mo2) (10 * digitVal d1 + digitVal d2)
        (10 * digitVal h1 + digitVal h2) (10 * digitVal mi1 + digitVal mi2)
        (10 * digitVal se1 + digitVal se2)
    else none
  | _ => none

/-! ## Listing rows

A parsed `tr.ub-content` node, reduced to the attributes and cells
`extract_post_data` reads.  A BeautifulSoup `tag.get(attr, '')` yields `''`
when the attribute is missing, so string-valued attributes read that way are
plain `String`s with `""` for "absent"; cells looked up with `select_one` are
`Option`s. -/

structure TitleCell where
  /-- Text of the `.reply_numbox` child, when present. -/
  replyNumText : Option String
  /-- Model of `get_text(strip=True)` of the link after the reply box is decomposed. -/
  text : String
  /-- The `href` attribute; `tag['href']` raises when it is missing. -/
  href : Option String
deriving DecidableEq

structure DateCell where
  /-- The `title` attribute of `td.gall_date`, when present. -/
  title : Option String
  /-- Model of `get_text(strip=True)` of the cell. -/
  text : String
deriving DecidableEq

structure WriterCell where
  dataNick : String
  dataIp : String
  dataUid : String
  /-- Model of `get_text(strip=True)` of `td.gall_writer`. -/
  text : String
deriving DecidableEq

structure Row where
  /-- Model of `row.get('data-type', '')`. -/
  dataType : String
  /-- Model of `row.select_one('td.gall_tit a')`. -/
  titleCell : Option TitleCell
  /-- Model of `row.get('data-no', '')`. -/
  dataNo : String
  /-- Text of `td.gall_num`, when that cell exists. -/
  numText : Option String
  /-- Model of `row.select_one('td.gall_date')`. -/
  dateCell : Option DateCell
  /-- Model of `row.select_one('td.gall_writer')`. -/
  writerCell : Option WriterCell
  /-- Text of `td.gall_count`, when that cell exists. -/
  countText : Option String
  /-- Text of `td.gall_recommend`, when that cell exists. -/
  recommendText : Option String
deriving DecidableEq

/-! ## `parse_date` -/

/-- Model of the source's `parse_date(date_tag, today)`: resolve a date cell to a
`datetime`.  A present, parseable `title` attribute wins; otherwise the
displayed text is interpreted as `HH:MM` (today), `MM.DD` (this year) or
`YY.MM.DD`; every parse failure inside the applicable branch ends in `none`. -/
def parse_date (dateTag : Option DateCell) (today : DateTime) : Option DateTime :=
  match dateTag with
  | none => none
  | some tag =>
    let fromTitle : Option DateTime :=
      match tag.title with
      | none => none
      | some s => if s = "" then none else strptimeFull s
    match fromTitle with
    | some dt => some dt
    | none =>
      if tag.text.data.any (fun c => c = ':') then
        match splitCh ':' tag.text.data with
        | [h, m] =>
          match parseDigits h, parseDigits m with
          | some hh, some mm => mkValid today.year today.month today.day hh mm 0
          | _, _ => none
        | _ => none
      else if tag.text.data.any (fun c => c = '.') then
        match splitCh '.' tag.text.data with
        | [p0, p1] =>
          match parseDigits p0, parseDigits p1 with
          | some mo, some d => mkValid today.year mo d 0 0 0
          | _, _ => none
        | [p0, p1, p2] =>
          match parseDigits p0, parseDigits p1, parseDigits p2 with
          | some yy, some mo, some d => mkValid (2000 + (yy : ℤ)) mo d 0 0 0
          | _, _, _ => none
        | _ => none
      else none

/-! ## `extract_post_data` -/

/-- A persisted post record: the dictionary the crawler stores (after the
transient `_datetime_obj` field is deleted). -/
structure Post where
  post_id : String
  title : String
  author : String
  author_ip : String
  author_type : String
  date : String
  time : String
  datetime : String
  views : ℤ
  likes : ℤ
  comments : ℤ
  url : String
deriving DecidableEq

/-- A freshly extracted record, still carrying the `_datetime_obj` sort field. -/
structure PostData where
  post : Post
  dtObj : DateTime
deriving DecidableEq

/-- The writer-cell resolution block of `extract_post_data`: author name,
author type, author ip. -/
def resolveWriter (w : Option WriterCell) : String × String × String :=
  match w with
  | none => ("", "unknown", "")
  | some wt =>
    let nick := wt.dataNick
    let authorIp := wt.dataIp
    let author := if nick = "" then wt.text else nick
    let authorType :=
      if wt.dataUid ≠ "" then "member"
      else if authorIp ≠ "" then
        if startsWithB author "ㅇㅇ" then "semi_anonymous" else "ip"
      else "ip"
    (author, authorType, authorIp)

/-- The `[N]` comment-count fragment: `int(text.strip('[]'))` with default 0. -/
def extractComments (s? : Option String) : ℤ :=
  match s? with
  | none => 0
  | some s =>
    match parseDigits (stripSquares s.data) with
    | some n => (n : ℤ)
    | none => 0

/-- A numeric cell (`views` / `likes`): `int(text)` with default 0. -/
def extractNum (t? : Option String) : ℤ :=
  match t? with
  | none => 0
  | some t =>
    match parseDigits t.data with
    | some n => (n : ℤ)
    | none => 0

/-- The post-id resolution of `extract_post_data`: the row-level `data-no`
attribute when non-empty, else the `gall_num` cell text provided it is purely
numeric. -/
def resolveId (row : Row) : Option String :=
  if row.dataNo ≠ "" then some row.dataNo
  else
    if isDigitsB (match row.numText with | some t => t | none => "") then
      some (match row.numText with | some t => t | none => "")
    else none

/-- Model of the source's `extract_post_data(row, today)`.  `none` models every path
on which the row yields no record: the notice filter, a missing title link,
a missing `href`, a non-numeric fallback id, an unresolvable date, and the
catch-all exception handler. -/
def extract_post_data (row : Row) (today : DateTime) : Option PostData :=
  if containsSub row.dataType.data "icon_notice".data then none
  else
    match row.titleCell with
    | none => none
    | some titleTag =>
      match titleTag.href with
      | none => none
      | some href =>
        match resolveId row with
        | none => none
        | some post_id =>
          match parse_date row.dateCell today with
          | none => none
          | some dt =>
            some ⟨⟨post_id, titleTag.text, (resolveWriter row.writerCell).1,
                   (resolveWriter row.writerCell).2.2, (resolveWriter row.writerCell).2.1,
                   fmtDate dt, fmtTime dt, fmtDateTime dt,
                   extractNum row.countText, extractNum row.recommendText,
                   extractComments titleTag.replyNumText,
                   "https://gall.dcinside.com" ++ href⟩, dt⟩

/-! ## The crawl loop (`crawl_posts`) -/

/-- The mutable state threaded through the row loop of `crawl_posts`. -/
structure CrawlState where
  allPosts : List PostData
  stopCrawling : Bool
  dupCount : ℕ
deriving DecidableEq

/-- The body of `for row in rows` in `crawl_posts`: dedup against the archive
baseline with the consecutive-duplicate counter, then the cutoff-date check.
Returning without recursing models `break`. -/
def processRows (ids : List String) (cutoff today : DateTime) :
    List Row → CrawlState → CrawlState
  | [], s => s
  | row :: rest, s =>
    match extract_post_data row today with
    | none => processRows ids cutoff today rest s
    | some p =>
      if p.post.post_id ∈ ids then
        if 5 ≤ s.dupCount + 1 then
          { s with stopCrawling := true, dupCount := s.dupCount + 1 }
        else processRows ids cutoff today rest { s with dupCount := s.dupCount + 1 }
      else
        if dtLeB cutoff p.dtObj then
          processRows ids cutoff today rest
            { s with dupCount := 0, allPosts := s.allPosts ++ [p] }
        else { s with dupCount := 0, stopCrawling := true }

/-- The same loop on already-extracted records; `processRows` factors through
it (extraction is pure, so the unextracted tail of a broken page is
irrelevant). -/
def processPosts (ids : List String) (cutoff : DateTime) :
    List PostData → CrawlState → CrawlState
  | [], s => s
  | p :: rest, s =>
    if p.post.post_id ∈ ids then
      if 5 ≤ s.dupCount + 1 then
        { s with stopCrawling := true, dupCount := s.dupCount + 1 }
      else processPosts ids cutoff rest { s with dupCount := s.dupCount + 1 }
    else
      if dtLeB cutoff p.dtObj then
        processPosts ids cutoff rest
          { s with dupCount := 0, allPosts := s.allPosts ++ [p] }
      else { s with dupCount := 0, stopCrawling := true }

/-- The `while not stop_crawling` page loop: each list entry is the fetch
result of the next page (`none` = transport failure, which breaks; an empty
row list breaks; otherwise the row loop runs and `stop_crawling` is obeyed). -/
def crawlPages (ids : List String) (cutoff today : DateTime) :
    List (Option (List Row)) → CrawlState → List PostData
  | [], s => s.allPosts
  | fetch :: rest, s =>
    match fetch with
    | none => s.allPosts
    | some [] => s.allPosts
    | some (row :: rows) =>
      let s' := processRows ids cutoff today (row :: rows) s
      if s'.stopCrawling then s'.allPosts else crawlPages ids cutoff today rest s'

/-- Model of the source's `crawl_posts()`, with the ambient inputs made explicit:
the archive id baseline, the page stream, `today` and the cutoff date.
The returned records have `_datetime_obj` deleted. -/
def crawl_posts (ids : List String) (pages : List (Option (List Row)))
    (today cutoff : DateTime) : List Post :=
  (crawlPages ids cutoff today pages ⟨[], false, 0⟩).map (fun p => p.post)

/-! ## `get_week_info` and `organize_by_week` -/

structure WeekInfo where
  week_id : String
  year : ℤ
  week : ℤ
  week_start : String
  week_end : String
deriving DecidableEq

/-- The f-string `f"{year}_W{week:02d}"`. -/
def weekIdStr (y w : ℤ) : String := intRepr y ++ "_W" ++ padNat 2 w.toNat

/-- Model of the source's `get_week_info(date)`: ISO year and week of `date`, and the
Monday/Sunday of `date`'s calendar week rendered `%Y-%m-%d`. -/
def get_week_info (d : DateTime) : WeekInfo :=
  { week_id := weekIdStr (isocalendarOrd d.year d.toOrd).1 (isocalendarOrd d.year d.toOrd).2.1
    year := (isocalendarOrd d.year d.toOrd).1
    week := (isocalendarOrd d.year d.toOrd).2.1
    week_start := fmtDateOrd (d.toOrd - weekdayOrd d.toOrd)
    week_end := fmtDateOrd (d.toOrd - weekdayOrd d.toOrd + 6) }

structure WeekGroup where
  info : WeekInfo
  posts : List Post
deriving DecidableEq

/-- Insertion-ordered dictionary update: append `p` to the group at `wid`,
creating the group (with `info`) at the end when the key is new. -/
def addToWeek : List (String × WeekGroup) → String → WeekInfo → Post →
    List (String × WeekGroup)
  | [], wid, info, p => [(wid, ⟨info, [p]⟩)]
  | (k, g) :: rest, wid, info, p =>
    if k = wid then (k, { g with posts := g.posts ++ [p] }) :: rest
    else (k, g) :: addToWeek rest wid info p

/-- The loop of `organize_by_week`: `none` models the `ValueError` that
`strptime` raises on an unparseable `datetime` string (which aborts the run
before any merge). -/
def organizeAux : List Post → List (String × WeekGroup) →
    Option (List (String × WeekGroup))
  | [], weeks => some weeks
  | p :: rest, weeks =>
    match strptimeISO p.datetime with
    | none => none
    | some d => organizeAux rest (addToWeek weeks (get_week_info d).week_id (get_week_info d) p)

/-- Model of the source's `organize_by_week(posts)`: group the collected posts by the
ISO week of their own `datetime` string. -/
def organize_by_week (posts : List Post) : Option (List (String × WeekGroup)) :=
  organizeAux posts []

/-- All records across all groups of the weeks dictionary, in group order. -/
def groupPosts (ws : List (String × WeekGroup)) : List Post :=
  ws.flatMap (fun kg => kg.2.posts)

/-! ## The archive store (`load_week_data` / `merge_and_save`) -/

structure WeekFile where
  gallery_id : String
  gallery_name : String
  week : String
  week_start : String
  week_end : String
  last_updated : String
  posts : List Post
  total_posts : ℕ
deriving DecidableEq

def GALL_ID : String := "thesingularity"

def GALL_NAME : String := "특이점이 온다"

/-- Model of `create_week_structure(week_info)`; `now` stands for the wall-clock
`last_updated` stamp. -/
def create_week_structure (info : WeekInfo) (now : String) : WeekFile :=
  ⟨GALL_ID, GALL_NAME, info.week_id, info.week_start, info.week_end, now, [], 0⟩

/-- The archive directory: one JSON file per week id.  `load_week_data`. -/
def lookupF (wid : String) : List (String × WeekFile) → Option WeekFile
  | [] => none
  | (k, f) :: rest => if k = wid then some f else lookupF wid rest

/-- Model of `save_week_data`: (re)write the file named by `wid`. -/
def storeSet : List (String × WeekFile) → String → WeekFile → List (String × WeekFile)
  | [], wid, f => [(wid, f)]
  | (k, v) :: rest, wid, f =>
    if k = wid then (k, f) :: rest else (k, v) :: storeSet rest wid f

/-- Group lookup in the weeks dictionary produced by `organize_by_week`. -/
def lookupW (wid : String) : List (String × WeekGroup) → Option WeekGroup
  | [] => none
  | (k, g) :: rest => if k = wid then some g else lookupW wid rest

/-- Every group of the dictionary was created (and keyed) from the
`get_week_info` of some valid parsed datetime. -/
def WeeksOK (ws : List (String × WeekGroup)) : Prop :=
  ∀ k g, lookupW k ws = some g → ∃ d, d.ValidB = true ∧ g.info = get_week_info d ∧
    k = (get_week_info d).week_id

def postIds (l : List Post) : List String := l.map (fun p => p.post_id)

/-- Stable insertion of `x` (an earlier record) into an already
descending-sorted list of later records: `x` goes before the first element it
is not strictly below. -/
def insertDesc (x : Post) : List Post → List Post
  | [] => [x]
  | y :: ys => if strLt x.datetime y.datetime then y :: insertDesc x ys else x :: y :: ys

/-- Model of `posts.sort(key=lambda x: x['datetime'], reverse=True)`: stable sort,
descending by the `datetime` string. -/
def sortDesc : List Post → List Post
  | [] => []
  | x :: xs => insertDesc x (sortDesc xs)

/-- The pre-sort merged list of the `merge_and_save` loop body: the existing
file's posts followed by the incoming records whose id is not already in that
file (all incoming records when there is no existing file). -/
def mergedPosts (arch : List (String × WeekFile)) (wid : String)
    (newPosts : List Post) : List Post :=
  match lookupF wid arch with
  | some existing =>
    existing.posts ++ newPosts.filter (fun p => p.post_id ∉ postIds existing.posts)
  | none => newPosts

/-- One iteration of the `merge_and_save` loop: merge the batch for `wid` into
its week file and rewrite the file. -/
def merge_week (arch : List (String × WeekFile)) (wid : String) (info : WeekInfo)
    (newPosts : List Post) (now : String) : List (String × WeekFile) :=
  let allP := sortDesc (mergedPosts arch wid newPosts)
  storeSet arch wid
    { create_week_structure info now with posts := allP, total_posts := allP.length }

/-- Model of the source's `merge_and_save(weeks_data)`. -/
def merge_and_save (arch : List (String × WeekFile))
    (weeks : List (String × WeekGroup)) (now : String) : List (String × WeekFile) :=
  weeks.foldl (fun a kg => merge_week a kg.1 kg.2.info kg.2.posts now) arch

/-- Model of `load_all_existing_ids()`: every post id across every week file. -/
def allIds (arch : List (String × WeekFile)) : List String :=
  arch.flatMap (fun kv => postIds kv.2.posts)

/-- One run of `main()`: crawl against the archive baseline, organize by week,
merge and save.  When `organize_by_week` fails the run dies before any merge,
leaving the archive unchanged; an empty crawl yields an empty weeks dictionary
and hence no writes, matching the early return. -/
def runOnce (arch : List (String × WeekFile)) (pages : List (Option (List Row)))
    (today cutoff : DateTime) (now : String) : List (String × WeekFile) :=
  match organize_by_week (crawl_posts (allIds arch) pages today cutoff) with
  | none => arch
  | some weeks => merge_and_save arch weeks now

/-! ## Concrete inputs used to exercise the definitions -/

def today0 : DateTime := ⟨2024, 3, 10, 12, 0, 0⟩

def cutoff0 : DateTime := ⟨2024, 2, 11, 12, 0, 0⟩

/-- A plain post row: no notice marker, a valid title link, a row-level id and
a full timestamp inside the collection window. -/
def row0 : Row :=
  ⟨"", some ⟨none, "hello", some "/board/1"⟩, "123", none,
    some ⟨some "2024-03-08 10:00:00", ""⟩, none, none, none⟩

/-- Like `row0` but dated before the cutoff. -/
def rowOld : Row :=
  { row0 with dataNo := "77", dateCell := some ⟨some "2024-01-01 08:00:00", ""⟩ }

/-- Like `row0` but with a writer cell carrying no identity attribute at all. -/
def rowNoAttrs : Row := { row0 with writerCell := some ⟨"", "", "", "someone"⟩ }

/-- Like `row0` but flagged as a notice. -/
def noticeRow : Row := { row0 with dataType := "icon_notice" }

/-- The record `extract_post_data` produces from `rowNoAttrs`. -/
def pdNoAttrs : PostData :=
  ⟨⟨"123", "hello", "someone", "", "ip", "2024-03-08", "10:00:00",
     "2024-03-08T10:00:00", 0, 0, 0, "https://gall.dcinside.com/board/1"⟩,
   ⟨2024, 3, 8, 10, 0, 0⟩⟩

/-- An extracted record whose id is the baseline id `"123"`. -/
def pdKnown : PostData :=
  ⟨⟨"123", "t", "", "", "ip", "2024-03-08", "10:00:00", "2024-03-08T10:00:00",
     0, 0, 0, "u"⟩, ⟨2024, 3, 8, 10, 0, 0⟩⟩

/-- An extracted record with a fresh id inside the window. -/
def pdFresh : PostData :=
  ⟨⟨"7", "t", "", "", "ip", "2024-03-09", "11:00:00", "2024-03-09T11:00:00",
     0, 0, 0, "u"⟩, ⟨2024, 3, 9, 11, 0, 0⟩⟩

/-- An extracted record with a fresh id dated before the cutoff. -/
def pdOld : PostData :=
  ⟨⟨"8", "t", "", "", "ip", "2024-01-01", "08:00:00", "2024-01-01T08:00:00",
     0, 0, 0, "u"⟩, ⟨2024, 1, 1, 8, 0, 0⟩⟩

/-- A stored post record used to exercise the partitioner. -/
def examplePost : Post :=
  ⟨"123", "hello", "", "", "unknown", "2024-03-08", "10:00:00",
    "2024-03-08T10:00:00", 0, 0, 0, "u"⟩

def exampleDT : DateTime := ⟨2024, 3, 8, 10, 0, 0⟩

/-- The weeks dictionary `organize_by_week` builds from `[examplePost]`. -/
def exampleWeeks : List (String × WeekGroup) :=
  [((get_week_info exampleDT).week_id, ⟨get_week_info exampleDT, [examplePost]⟩)]

end DC

namespace DC

/-! ## Order lemmas for the `datetime`-string comparison -/

lemma lexLt_irrefl (l : List Char) : lexLt l l = false := by
  induction l with
  | nil => rfl
  | cons a as ih => simp [lexLt, ih]

lemma strLt_irrefl (s : String) : strLt s s = false := lexLt_irrefl s.data

lemma lexLt_asymm (a : List Char) : ∀ b, lexLt a b = true → lexLt b a = false := by
  induction a with
  | nil =>
    intro b h
    cases b with
    | nil => rfl
    | cons y ys => rfl
  | cons x xs ih =>
    intro b h
    cases b with
    | nil => exact absurd h (by simp [lexLt])
    | cons y ys =>
      simp only [lexLt] at h ⊢
      split_ifs at h ⊢ <;>
        first
        | rfl
        | (exact ih ys h)
        | (exfalso; omega)

lemma lexLt_false_trans (a : List Char) :
    ∀ b c, lexLt a b = false → lexLt b c = false → lexLt a c = false := by
  induction a with
  | nil =>
    intro b c hab hbc
    cases b with
    | nil =>
      cases c with
      | nil => rfl
      | cons z zs => exact absurd hbc (by simp [lexLt])
    | cons y ys => exact absurd hab (by simp [lexLt])
  | cons x xs ih =>
    intro b c hab hbc
    cases b with
    | nil =>
      cases c with
      | nil => rfl
      | cons z zs => exact absurd hbc (by simp [lexLt])
    | cons y ys =>
      cases c with
      | nil => rfl
      | cons z zs =>
        simp only [lexLt] at hab hbc ⊢
        split_ifs at hab hbc ⊢ <;>
          first
          | rfl
          | (exact ih ys zs hab hbc)
          | (exfalso; omega)

lemma strLt_false_trans {a b c : String} (hab : strLt a b = false)
    (hbc : strLt b c = false) : strLt a c = false :=
  lexLt_false_trans a.data b.data c.data hab hbc

lemma strLt_asymm {a b : String} (h : strLt a b = true) : strLt b a = false :=
  lexLt_asymm a.data b.data h

/-! ## C2: date-cell resolution order -/

/-- C2 counterexample: a cell whose full-timestamp `title` attribute is
malformed does not resolve to `none`; the displayed `HH:MM` text is still
interpreted (the `except: pass` falls through to the text rules). -/
theorem c2_counterexample :
    parse_date (some ⟨some "garbage", "14:05"⟩) today0 = some ⟨2024, 3, 10, 14, 5, 0⟩ ∧
    parse_date (some ⟨some "garbage", "14:05"⟩) today0 ≠ none := by
  constructor
  · decide
  · decide

/-- C2 amended: the resolver first tries the full embedded timestamp; when that
attribute parses the result is its value, and when it is absent, empty, or
malformed the resolver behaves exactly as if the attribute were absent and
falls through to the displayed-text rules.  Among the text rules the format
determines the single applicable rule — `HH:MM` when the text contains `:`,
otherwise the dot rules by segment count, otherwise `none` — and a parse
failure under the applicable text rule yields `none` without trying a later
rule. -/
theorem c2_amended :
    (∀ (s t : String) (today : DateTime) (d : DateTime), strptimeFull s = some d →
        parse_date (some ⟨some s, t⟩) today = some d) ∧
    (∀ (s t : String) (today : DateTime), strptimeFull s = none →
        parse_date (some ⟨some s, t⟩) today = parse_date (some ⟨none, t⟩) today) ∧
    (∀ (t : String) (today : DateTime), t.data.any (fun c => c = ':') = true →
        parse_date (some ⟨none, t⟩) today =
          (match splitCh ':' t.data with
           | [h, m] =>
             match parseDigits h, parseDigits m with
             | some hh, some mm => mkValid today.year today.month today.day hh mm 0
             | _, _ => none
           | _ => none)) ∧
    (∀ (t : String) (today : DateTime), t.data.any (fun c => c = ':') = false →
        t.data.any (fun c => c = '.') = true →
        parse_date (some ⟨none, t⟩) today =
          (match splitCh '.' t.data with
           | [p0, p1] =>
             match parseDigits p0, parseDigits p1 with
             | some mo, some d => mkValid today.year mo d 0 0 0
             | _, _ => none
           | [p0, p1, p2] =>
             match parseDigits p0, parseDigits p1, parseDigits p2 with
             | some yy, some mo, some d => mkValid (2000 + (yy : ℤ)) mo d 0 0 0
             | _, _, _ => none
           | _ => none)) ∧
    (∀ (t : String) (today : DateTime), t.data.any (fun c => c = ':') = false →
        t.data.any (fun c => c = '.') = false →
        parse_date (some ⟨none, t⟩) today = none) := by
  refine ⟨?_, ?_, ?_, ?_, ?_⟩
  · intro s t today d h
    by_cases hs : s = ""
    · subst hs; simp [strptimeFull] at h
    · simp [parse_date, hs, h]
  · intro s t today h
    by_cases hs : s = ""
    · simp [parse_date, hs]
    · simp [parse_date, hs, h]
  · intro t today h
    simp [parse_date, h]
  · intro t today h1 h2
    simp [parse_date, h1, h2]
  · intro t today h1 h2
    simp [parse_date, h1, h2]

/-- Witness for the amended C2 at concrete cells: a parseable `title` wins
over the text; the malformed `title` `"garbage"` behaves as an absent one; a
colon text out of range (`"25:05"`) is a hard miss even though it also
contains no later-rule format. -/
theorem c2_amended_witness :
    parse_date (some ⟨some "2024-03-08 10:00:01", "14:05"⟩) today0 =
      some ⟨2024, 3, 8, 10, 0, 1⟩ ∧
    parse_date (some ⟨some "garbage", "03.09"⟩) today0 =
      parse_date (some ⟨none, "03.09"⟩) today0 ∧
    parse_date (some ⟨none, "25:05"⟩) today0 = none := by
  refine ⟨c2_amended.1 _ _ _ _ (by decide), c2_amended.2.1 _ _ _ (by decide), ?_⟩
  have h := c2_amended.2.2.1 "25:05" today0 (by decide)
  simpa using h

/-! ## Inversion of a successful extraction -/

/-- A successfully extracted record carries exactly the writer-cell resolution
of its row. -/
lemma extract_writer_fields (row : Row) (today : DateTime) (pd : PostData)
    (h : extract_post_data row today = some pd) :
    pd.post.author = (resolveWriter row.writerCell).1 ∧
    pd.post.author_type = (resolveWriter row.writerCell).2.1 ∧
    pd.post.author_ip = (resolveWriter row.writerCell).2.2 := by
  unfold extract_post_data at h
  split at h
  · exact absurd h (by simp)
  · split at h
    · exact absurd h (by simp)
    · split at h
      · exact absurd h (by simp)
      · split at h
        · exact absurd h (by simp)
        · split at h
          · exact absurd h (by simp)
          · cases h
            exact ⟨rfl, rfl, rfl⟩

/-! ## C3: author-type resolution -/

/-- C3 counterexample: a row whose writer cell has neither a member-identity
attribute nor an IP attribute is extracted with `author_type = "ip"`, not
`"unknown"` as the claim states. -/
theorem c3_counterexample :
    (extract_post_data rowNoAttrs today0).map (fun p => p.post.author_type) = some "ip" ∧
    ("ip" : String) ≠ "unknown" := by
  constructor
  · decide
  · decide

/-- C3 amended: for every extracted row with a writer cell, `author_type` is
`member` when the member-identity attribute is non-empty; otherwise
`semi_anonymous` when an IP attribute is present and the resolved nickname
starts with the semi-anonymous marker; otherwise `ip` when an IP attribute is
present; and also `ip` — not `unknown` — when neither attribute is present.
(`unknown` only ever describes rows with no writer cell at all.) -/
theorem c3_amended (row : Row) (today : DateTime) (pd : PostData) (w : WriterCell)
    (h : extract_post_data row today = some pd) (hw : row.writerCell = some w) :
    (w.dataUid ≠ "" → pd.post.author_type = "member") ∧
    (w.dataUid = "" → w.dataIp ≠ "" →
      startsWithB (if w.dataNick = "" then w.text else w.dataNick) "ㅇㅇ" = true →
      pd.post.author_type = "semi_anonymous") ∧
    (w.dataUid = "" → w.dataIp ≠ "" →
      startsWithB (if w.dataNick = "" then w.text else w.dataNick) "ㅇㅇ" = false →
      pd.post.author_type = "ip") ∧
    (w.dataUid = "" → w.dataIp = "" → pd.post.author_type = "ip") := by
  have hf := (extract_writer_fields row today pd h).2.1
  rw [hw] at hf
  refine ⟨?_, ?_, ?_, ?_⟩
  · intro h1
    rw [hf]; simp [resolveWriter, h1]
  · intro h1 h2 h3
    rw [hf]; simp [resolveWriter, h1, h2, h3]
  · intro h1 h2 h3
    rw [hf]; simp [resolveWriter, h1, h2, h3]
  · intro h1 h2
    rw [hf]; simp [resolveWriter, h1, h2]

/-- Witness for the amended C3: a concrete row hitting the
`ip`-despite-no-attributes rule. -/
theorem c3_amended_witness : pdNoAttrs.post.author_type = "ip" :=
  (c3_amended rowNoAttrs today0 pdNoAttrs ⟨"", "", "", "someone"⟩ (by decide)
    (by decide)).2.2.2 (by decide) (by decide)

/-! ## C10: author name fallback -/

/-- C10: when the writer cell's nickname attribute is empty or absent the
author is the cell's displayed text, and when the nickname attribute is
present the displayed text is ignored. -/
theorem c10_author_fallback (row : Row) (today : DateTime) (pd : PostData)
    (w : WriterCell) (h : extract_post_data row today = some pd)
    (hw : row.writerCell = some w) :
    (w.dataNick = "" → pd.post.author = w.text) ∧
    (w.dataNick ≠ "" → pd.post.author = w.dataNick) := by
  have hf := (extract_writer_fields row today pd h).1
  rw [hw] at hf
  constructor
  · intro h1; rw [hf]; simp [resolveWriter, h1]
  · intro h1; rw [hf]; simp [resolveWriter, h1]

/-- Witness for C10 at a concrete row whose writer cell has no nickname
attribute. -/
theorem c10_witness : pdNoAttrs.post.author = "someone" :=
  (c10_author_fallback rowNoAttrs today0 pdNoAttrs ⟨"", "", "", "someone"⟩
    (by decide) (by decide)).1 (by decide)

/-! ## C9: per-row failure isolation -/

/-- C9: extraction is total per row — a notice marker, a missing title cell, a
non-numeric fallback id, or an unresolvable date each yield `none` for that
row — and a `none` row leaves the crawl state untouched while the remaining
rows of the page are still processed. -/
theorem c9_row_isolation :
    (∀ (row : Row) (today : DateTime),
      containsSub row.dataType.data "icon_notice".data = true →
      extract_post_data row today = none) ∧
    (∀ (row : Row) (today : DateTime), row.titleCell = none →
      extract_post_data row today = none) ∧
    (∀ (row : Row) (today : DateTime), row.dataNo = "" →
      isDigitsB (match row.numText with | some t => t | none => "") = false →
      extract_post_data row today = none) ∧
    (∀ (row : Row) (today : DateTime), parse_date row.dateCell today = none →
      extract_post_data row today = none) ∧
    (∀ (ids : List String) (cutoff today : DateTime) (row : Row) (rest : List Row)
        (s : CrawlState), extract_post_data row today = none →
      processRows ids cutoff today (row :: rest) s = processRows ids cutoff today rest s) := by
  refine ⟨?_, ?_, ?_, ?_, ?_⟩
  · intro row today h
    simp [extract_post_data, h]
  · intro row today h
    unfold extract_post_data
    split
    · rfl
    · rw [h]
  · intro row today h hd
    have hid : resolveId row = none := by simp [resolveId, h, hd]
    unfold extract_post_data
    split
    · rfl
    · split
      · rfl
      · split
        · rfl
        · rw [hid]
  · intro row today h
    unfold extract_post_data
    split
    · rfl
    · split
      · rfl
      · split
        · rfl
        · split
          · rfl
          · rw [h]
  · intro ids cutoff today row rest s h
    simp [processRows, h]

/-- Witness for C9: the four rejection modes at concrete rows, and the
skip-isolation of a notice row in a page that still yields the later row. -/
theorem c9_witness :
    extract_post_data noticeRow today0 = none ∧
    extract_post_data { row0 with titleCell := none } today0 = none ∧
    extract_post_data { row0 with dataNo := "", numText := some "공지" } today0 = none ∧
    extract_post_data { row0 with dateCell := some ⟨none, "??"⟩ } today0 = none ∧
    processRows [] cutoff0 today0 [noticeRow, row0] ⟨[], false, 0⟩ =
      processRows [] cutoff0 today0 [row0] ⟨[], false, 0⟩ := by
  refine ⟨?_, ?_, ?_, ?_, ?_⟩
  · exact c9_row_isolation.1 noticeRow today0 (by decide)
  · exact c9_row_isolation.2.1 _ today0 (by decide)
  · exact c9_row_isolation.2.2.1 _ today0 (by decide) (by decide)
  · exact c9_row_isolation.2.2.2.1 _ today0 (by decide)
  · exact c9_row_isolation.2.2.2.2 [] cutoff0 today0 noticeRow [row0] ⟨[], false, 0⟩
      (c9_row_isolation.1 noticeRow today0 (by decide))

/-! ## The stable descending sort -/

lemma insertDesc_perm (x : Post) (l : List Post) :
    List.Perm (insertDesc x l) (x :: l) := by
  induction l with
  | nil => exact List.Perm.refl _
  | cons y ys ih =>
    unfold insertDesc
    split
    · exact ((ih.cons y).trans (List.Perm.swap x y ys))
    · exact List.Perm.refl _

lemma sortDesc_perm (l : List Post) : List.Perm (sortDesc l) l := by
  induction l with
  | nil => exact List.Perm.refl _
  | cons x xs ih => exact (insertDesc_perm x (sortDesc xs)).trans (ih.cons x)

lemma pairwise_insertDesc (x : Post) (l : List Post)
    (h : List.Pairwise (fun a b => strLt a.datetime b.datetime = false) l) :
    List.Pairwise (fun a b => strLt a.datetime b.datetime = false) (insertDesc x l) := by
  induction l with
  | nil => simp [insertDesc]
  | cons y ys ih =>
    rcases List.pairwise_cons.mp h with ⟨hy, hys⟩
    unfold insertDesc
    split
    · rename_i hlt
      refine List.pairwise_cons.mpr ⟨?_, ih hys⟩
      intro z hz
      rcases List.mem_cons.mp ((insertDesc_perm x ys).mem_iff.mp hz) with h' | hzys
      · rw [h']
        exact strLt_asymm hlt
      · exact hy z hzys
    · rename_i hnlt
      have hxy : strLt x.datetime y.datetime = false := by
        cases hb : strLt x.datetime y.datetime
        · rfl
        · exact absurd hb hnlt
      refine List.pairwise_cons.mpr ⟨?_, List.pairwise_cons.mpr ⟨hy, hys⟩⟩
      intro z hz
      rcases List.mem_cons.mp hz with h' | hzys
      · rw [h']; exact hxy
      · exact strLt_false_trans hxy (hy z hzys)

lemma sortDesc_pairwise (l : List Post) :
    List.Pairwise (fun a b => strLt a.datetime b.datetime = false) (sortDesc l) := by
  induction l with
  | nil => simp [sortDesc]
  | cons x xs ih => exact pairwise_insertDesc x (sortDesc xs) ih

lemma sortDesc_of_sorted (l : List Post)
    (h : List.Pairwise (fun a b => strLt a.datetime b.datetime = false) l) :
    sortDesc l = l := by
  induction l with
  | nil => rfl
  | cons x xs ih =>
    rcases List.pairwise_cons.mp h with ⟨hx, hxs⟩
    unfold sortDesc
    rw [ih hxs]
    cases xs with
    | nil => rfl
    | cons y ys =>
      have hxy : strLt x.datetime y.datetime = false := hx y (List.mem_cons_self y ys)
      simp [insertDesc, hxy]

lemma filter_insertDesc (x : Post) (l : List Post) (d : String) :
    (insertDesc x l).filter (fun p => p.datetime = d) =
      if x.datetime = d then x :: l.filter (fun p => p.datetime = d)
      else l.filter (fun p => p.datetime = d) := by
  induction l with
  | nil =>
    by_cases hx : x.datetime = d <;> simp [insertDesc, hx]
  | cons y ys ih =>
    unfold insertDesc
    split
    · rename_i hlt
      have hxy : x.datetime ≠ y.datetime := by
        intro hxy
        rw [hxy, strLt_irrefl] at hlt
        exact Bool.false_ne_true hlt
      rw [List.filter_cons, ih]
      by_cases hx : x.datetime = d
      · have hy : ¬ (y.datetime = d) := fun hyd => hxy (by rw [hx, hyd])
        simp [hx, hy, List.filter_cons]
      · by_cases hy : y.datetime = d <;> simp [hx, hy, List.filter_cons]
    · rw [List.filter_cons]
      by_cases hx : x.datetime = d <;> simp [hx, List.filter_cons]

lemma filter_sortDesc (l : List Post) (d : String) :
    (sortDesc l).filter (fun p => p.datetime = d) = l.filter (fun p => p.datetime = d) := by
  induction l with
  | nil => rfl
  | cons x xs ih =>
    unfold sortDesc
    rw [filter_insertDesc, ih]
    by_cases hx : x.datetime = d
    · simp [List.filter_cons, hx]
    · simp [List.filter_cons, hx]

/-! ## Store lemmas -/

lemma lookupF_storeSet_same (arch : List (String × WeekFile)) (wid : String)
    (f : WeekFile) : lookupF wid (storeSet arch wid f) = some f := by
  induction arch with
  | nil => simp [storeSet, lookupF]
  | cons kv rest ih =>
    obtain ⟨k, v⟩ := kv
    unfold storeSet
    split
    · simp_all [lookupF]
    · simp_all [lookupF]

/-- Every id of `l` is among the ids of the merged list for `l`. -/
lemma mem_mergedPosts (arch : List (String × WeekFile)) (wid : String)
    (newPosts : List Post) (p : Post) (hp : p ∈ newPosts) :
    p.post_id ∈ postIds (mergedPosts arch wid newPosts) := by
  unfold mergedPosts
  split
  · rename_i e heq
    by_cases hin : p.post_id ∈ postIds e.posts
    · simp only [postIds, List.map_append, List.mem_append]
      exact Or.inl hin
    · simp only [postIds, List.map_append, List.mem_append]
      refine Or.inr ?_
      simp only [List.mem_map]
      exact ⟨p, List.mem_filter.mpr ⟨hp, by simpa [postIds] using hin⟩, rfl⟩
  · simp only [postIds, List.mem_map]
    exact ⟨p, hp, rfl⟩

lemma postIds_perm {l l' : List Post} (h : List.Perm l l') :
    List.Perm (postIds l) (postIds l') := by
  unfold postIds
  exact h.map (fun p => p.post_id)

lemma mergedPosts_storeSet_same (arch : List (String × WeekFile)) (wid : String)
    (f : WeekFile) (newPosts : List Post) :
    mergedPosts (storeSet arch wid f) wid newPosts =
      f.posts ++ newPosts.filter (fun p => p.post_id ∉ postIds f.posts) := by
  unfold mergedPosts
  rw [lookupF_storeSet_same]

/-! ## C7: persisted ordering, stability, and the count invariant -/

/-- C7: after a merge the stored file's `posts` are sorted by the `datetime`
string in non-increasing order, the sort is stable (for every `datetime` value
the records carrying it appear exactly as they did, in order, in the pre-sort
merged list), and `total_posts` equals the length of `posts` in the same
file. -/
theorem c7_sorted_stable_count (arch : List (String × WeekFile)) (wid : String)
    (info : WeekInfo) (newPosts : List Post) (now : String) :
    ∃ f, lookupF wid (merge_week arch wid info newPosts now) = some f ∧
      List.Pairwise (fun a b => strLt a.datetime b.datetime = false) f.posts ∧
      (∀ d, f.posts.filter (fun p => p.datetime = d) =
        (mergedPosts arch wid newPosts).filter (fun p => p.datetime = d)) ∧
      f.total_posts = f.posts.length := by
  refine ⟨_, lookupF_storeSet_same arch wid _, ?_, ?_, rfl⟩
  · exact sortDesc_pairwise _
  · intro d
    exact filter_sortDesc _ d

/-! ## C6: idempotence of merge-and-persist -/

/-- C6: merging the same batch a second time into the state left by the first
merge changes nothing: the second run's unique-new filter is empty and the
re-written file carries the same `posts` and the same `total_posts`. -/
theorem c6_idempotent (arch : List (String × WeekFile)) (wid : String)
    (info : WeekInfo) (newPosts : List Post) (now now2 : String) :
    ∃ f1 f2,
      lookupF wid (merge_week arch wid info newPosts now) = some f1 ∧
      lookupF wid (merge_week (merge_week arch wid info newPosts now) wid info newPosts now2) =
        some f2 ∧
      newPosts.filter (fun p => p.post_id ∉ postIds f1.posts) = [] ∧
      f2.posts = f1.posts ∧ f2.total_posts = f1.total_posts := by
  have hids : ∀ p ∈ newPosts,
      p.post_id ∈ postIds (sortDesc (mergedPosts arch wid newPosts)) := by
    intro p hp
    have hperm := postIds_perm (sortDesc_perm (mergedPosts arch wid newPosts))
    exact hperm.mem_iff.mpr (mem_mergedPosts arch wid newPosts p hp)
  have hfilter : newPosts.filter
      (fun p => p.post_id ∉ postIds (sortDesc (mergedPosts arch wid newPosts))) = [] := by
    rw [List.filter_eq_nil_iff]
    intro p hp
    simp [hids p hp]
  have h1 : merge_week arch wid info newPosts now =
      storeSet arch wid
        { create_week_structure info now with
          posts := sortDesc (mergedPosts arch wid newPosts),
          total_posts := (sortDesc (mergedPosts arch wid newPosts)).length } := rfl
  have h2 : mergedPosts (merge_week arch wid info newPosts now) wid newPosts =
      sortDesc (mergedPosts arch wid newPosts) := by
    rw [h1, mergedPosts_storeSet_same]
    show sortDesc (mergedPosts arch wid newPosts) ++
        newPosts.filter
          (fun p => p.post_id ∉ postIds (sortDesc (mergedPosts arch wid newPosts))) = _
    rw [hfilter, List.append_nil]
  have hsorted : sortDesc (sortDesc (mergedPosts arch wid newPosts)) =
      sortDesc (mergedPosts arch wid newPosts) :=
    sortDesc_of_sorted _ (sortDesc_pairwise _)
  refine ⟨{ create_week_structure info now with
            posts := sortDesc (mergedPosts arch wid newPosts),
            total_posts := (sortDesc (mergedPosts arch wid newPosts)).length },
          { create_week_structure info now2 with
            posts := sortDesc (mergedPosts (merge_week arch wid info newPosts now) wid newPosts),
            total_posts :=
              (sortDesc (mergedPosts (merge_week arch wid info newPosts now) wid newPosts)).length },
          ?_, ?_, ?_, ?_, ?_⟩
  · rw [h1]; exact lookupF_storeSet_same arch wid _
  · exact lookupF_storeSet_same _ wid _
  · exact hfilter
  · show sortDesc (mergedPosts (merge_week arch wid info newPosts now) wid newPosts) = _
    rw [h2, hsorted]
  · show (sortDesc (mergedPosts (merge_week arch wid info newPosts now) wid newPosts)).length = _
    rw [h2, hsorted]


/-! ## Crawl loop lemmas -/

/-- Extraction is pure, so the row loop factors through the list of
successfully extracted records. -/
lemma processRows_eq_processPosts (ids : List String) (cutoff today : DateTime) :
    ∀ (rows : List Row) (s : CrawlState),
      processRows ids cutoff today rows s =
        processPosts ids cutoff (rows.filterMap (fun r => extract_post_data r today)) s := by
  intro rows
  induction rows with
  | nil => intro s; rfl
  | cons row rest ih =>
    intro s
    unfold processRows
    rw [List.filterMap_cons]
    cases h : extract_post_data row today with
    | none =>
      simp only [h]
      exact ih s
    | some p =>
      simp only [h]
      unfold processPosts
      split
      · split
        · rfl
        · exact ih _
      · split
        · exact ih _
        · rfl

/-- Five consecutive already-known records, starting from a matching counter
value, stop the loop with the collected list untouched. -/
lemma dup_run (ids : List String) (cutoff : DateTime) :
    ∀ (n : ℕ) (ps : List PostData) (s : CrawlState), 1 ≤ n → s.dupCount + n = 5 →
      n ≤ ps.length → (∀ p ∈ ps.take n, p.post.post_id ∈ ids) →
      processPosts ids cutoff ps s = ⟨s.allPosts, true, 5⟩ := by
  intro n
  induction n with
  | zero =>
    intro ps s h1
    exact absurd h1 (by omega)
  | succ m ih =>
    intro ps s _ hdup hlen htake
    cases ps with
    | nil => simp at hlen
    | cons p rest =>
      have hp : p.post.post_id ∈ ids := by
        apply htake
        rw [List.take_succ_cons]
        exact List.mem_cons_self _ _
      unfold processPosts
      rw [if_pos hp]
      by_cases hm : m = 0
      · subst hm
        rw [if_pos (by omega)]
        cases s with
        | mk a st c =>
          have hc : c + 1 = 5 := by simpa using hdup
          show (⟨a, true, c + 1⟩ : CrawlState) = ⟨a, true, 5⟩
          rw [hc]
      · rw [if_neg (by omega)]
        have hres := ih rest { s with dupCount := s.dupCount + 1 } (by omega)
          (by simp only []; omega) (by simpa using hlen)
          (fun q hq => htake q (by rw [List.take_succ_cons]; exact List.mem_cons_of_mem _ hq))
        rw [hres]

/-- A run of fresh in-window records followed by a fresh out-of-window record
collects exactly the run and stops. -/
lemma fresh_run (ids : List String) (cutoff : DateTime) :
    ∀ (as : List PostData) (u : PostData) (qs : List PostData) (a : List PostData)
      (st : Bool) (c : ℕ),
      (∀ p ∈ as, p.post.post_id ∉ ids ∧ dtLeB cutoff p.dtObj = true) →
      u.post.post_id ∉ ids → dtLeB cutoff u.dtObj = false →
      processPosts ids cutoff (as ++ u :: qs) ⟨a, st, c⟩ = ⟨a ++ as, true, 0⟩ := by
  intro as
  induction as with
  | nil =>
    intro u qs a st c _ hu hdt
    simp only [List.nil_append]
    unfold processPosts
    rw [if_neg hu, if_neg (by simp [hdt])]
    simp
  | cons p as' ih =>
    intro u qs a st c has hu hdt
    have hp := has p (List.mem_cons_self _ _)
    show processPosts ids cutoff (p :: (as' ++ u :: qs)) ⟨a, st, c⟩ = _
    unfold processPosts
    rw [if_neg hp.1, if_pos (by simp [hp.2])]
    rw [ih u qs (a ++ [p]) st 0 (fun q hq => has q (List.mem_cons_of_mem _ hq)) hu hdt]
    simp

/-! ## C4: the consecutive-duplicate stop rule -/

/-- C4: a page whose first five extracted records are all already known stops
the whole crawl with nothing collected, whatever else the page or later pages
hold; a fresh record makes the duplicate counter irrelevant (it is reset to
0); and any run of at most four known records does not stop the loop — it
only advances the counter by its length. -/
theorem c4_duplicate_stop :
    (∀ (ids : List String) (today cutoff : DateTime) (rows : List Row)
        (rest : List (Option (List Row))),
      5 ≤ (rows.filterMap (fun r => extract_post_data r today)).length →
      (∀ p ∈ (rows.filterMap (fun r => extract_post_data r today)).take 5,
        p.post.post_id ∈ ids) →
      crawl_posts ids (some rows :: rest) today cutoff = []) ∧
    (∀ (ids : List String) (cutoff : DateTime) (p : PostData) (ps : List PostData)
        (a : List PostData) (st : Bool) (c c' : ℕ), p.post.post_id ∉ ids →
      processPosts ids cutoff (p :: ps) ⟨a, st, c⟩ =
        processPosts ids cutoff (p :: ps) ⟨a, st, c'⟩) ∧
    (∀ (ids : List String) (cutoff : DateTime) (ks ps : List PostData) (s : CrawlState),
      (∀ p ∈ ks, p.post.post_id ∈ ids) → s.dupCount + ks.length < 5 →
      processPosts ids cutoff (ks ++ ps) s =
        processPosts ids cutoff ps ⟨s.allPosts, s.stopCrawling, s.dupCount + ks.length⟩) := by
  refine ⟨?_, ?_, ?_⟩
  · intro ids today cutoff rows rest hlen htake
    cases rows with
    | nil => simp at hlen
    | cons r rs =>
      unfold crawl_posts crawlPages
      dsimp only
      rw [processRows_eq_processPosts,
        dup_run ids cutoff 5 _ ⟨[], false, 0⟩ (by omega) rfl hlen htake]
      simp
  · intro ids cutoff p ps a st c c' h
    simp [processPosts, h]
  · intro ids cutoff ks
    induction ks with
    | nil =>
      intro ps s _ _
      show processPosts ids cutoff ps s = _
      congr 1
    | cons k ks ih =>
      intro ps s hks hlt
      have hlt' : s.dupCount + (ks.length + 1) < 5 := by simpa using hlt
      have hk := hks k (List.mem_cons_self _ _)
      show processPosts ids cutoff (k :: (ks ++ ps)) s = _
      simp only [processPosts]
      rw [if_pos hk, if_neg (show ¬ 5 ≤ s.dupCount + 1 by omega)]
      rw [ih ps { s with dupCount := s.dupCount + 1 }
        (fun q hq => hks q (List.mem_cons_of_mem _ hq))
        (by show s.dupCount + 1 + ks.length < 5; omega)]
      show processPosts ids cutoff ps ⟨s.allPosts, s.stopCrawling, s.dupCount + 1 + ks.length⟩ = _
      have harith : s.dupCount + 1 + ks.length = s.dupCount + (k :: ks).length := by
        simp only [List.length_cons]
        omega
      rw [harith]

/-- Witness for C4: five known rows in page one stop the crawl with nothing
collected even though page two holds a fresh record; a fresh head makes the
counter value irrelevant; four known records only advance the counter. -/
theorem c4_witness :
    crawl_posts ["123"] [some [row0, row0, row0, row0, row0], some [rowOld]]
      today0 cutoff0 = [] ∧
    processPosts ["123"] cutoff0 [pdFresh] ⟨[], false, 3⟩ =
      processPosts ["123"] cutoff0 [pdFresh] ⟨[], false, 0⟩ ∧
    processPosts ["123"] cutoff0 ([pdKnown, pdKnown, pdKnown, pdKnown] ++ [pdFresh])
      ⟨[], false, 0⟩ =
      processPosts ["123"] cutoff0 [pdFresh] ⟨[], false, 4⟩ := by
  refine ⟨?_, ?_, ?_⟩
  · exact c4_duplicate_stop.1 ["123"] today0 cutoff0 _ _ (by decide) (by decide)
  · exact c4_duplicate_stop.2.1 ["123"] cutoff0 pdFresh [] [] false 3 0 (by decide)
  · exact c4_duplicate_stop.2.2 ["123"] cutoff0 [pdKnown, pdKnown, pdKnown, pdKnown]
      [pdFresh] ⟨[], false, 0⟩ (by decide) (by decide)

/-! ## C5: the cutoff-date stop rule -/

/-- C5: a fresh extracted record is accepted exactly when its timestamp is on
or after the cutoff; the first fresh record before the cutoff ends the whole
crawl, and neither it nor anything later on the page or on later pages is
collected. -/
theorem c5_cutoff_stop :
    (∀ (ids : List String) (cutoff : DateTime) (p : PostData) (ps : List PostData)
        (a : List PostData) (st : Bool) (c : ℕ), p.post.post_id ∉ ids →
      dtLeB cutoff p.dtObj = true →
      processPosts ids cutoff (p :: ps) ⟨a, st, c⟩ =
        processPosts ids cutoff ps ⟨a ++ [p], st, 0⟩) ∧
    (∀ (ids : List String) (cutoff : DateTime) (p : PostData) (ps : List PostData)
        (a : List PostData) (st : Bool) (c : ℕ), p.post.post_id ∉ ids →
      dtLeB cutoff p.dtObj = false →
      processPosts ids cutoff (p :: ps) ⟨a, st, c⟩ = ⟨a, true, 0⟩) ∧
    (∀ (ids : List String) (today cutoff : DateTime) (rows : List Row)
        (rest : List (Option (List Row))) (as : List PostData) (u : PostData)
        (qs : List PostData),
      rows.filterMap (fun r => extract_post_data r today) = as ++ u :: qs →
      (∀ p ∈ as, p.post.post_id ∉ ids ∧ dtLeB cutoff p.dtObj = true) →
      u.post.post_id ∉ ids → dtLeB cutoff u.dtObj = false →
      crawl_posts ids (some rows :: rest) today cutoff = as.map (fun p => p.post)) := by
  refine ⟨?_, ?_, ?_⟩
  · intro ids cutoff p ps a st c h hdt
    simp only [processPosts]
    rw [if_neg h, if_pos (show dtLeB cutoff p.dtObj = true from hdt)]
  · intro ids cutoff p ps a st c h hdt
    simp only [processPosts]
    rw [if_neg h, if_neg (show ¬ dtLeB cutoff p.dtObj = true by simp [hdt])]
  · intro ids today cutoff rows rest as u qs heq has hu hdt
    cases rows with
    | nil =>
      exfalso
      rw [List.filterMap_nil] at heq
      cases as <;> simp at heq
    | cons r rs =>
      unfold crawl_posts crawlPages
      dsimp only
      rw [processRows_eq_processPosts, heq,
        fresh_run ids cutoff as u qs [] false 0 has hu hdt]
      simp

/-- Witness for C5: a page holding one fresh in-window row, then an
out-of-window row, then more rows, collects exactly the first record; the
state-level accept and stop equations at concrete records. -/
theorem c5_witness :
    crawl_posts [] [some [row0, rowOld, row0], some [row0]] today0 cutoff0 =
      [⟨"123", "hello", "", "", "unknown", "2024-03-08", "10:00:00",
        "2024-03-08T10:00:00", 0, 0, 0, "https://gall.dcinside.com/board/1"⟩] ∧
    processPosts [] cutoff0 [pdFresh] ⟨[], false, 2⟩ =
      processPosts [] cutoff0 [] ⟨[pdFresh], false, 0⟩ ∧
    processPosts ["9"] cutoff0 [pdOld, pdFresh] ⟨[], false, 2⟩ = ⟨[], true, 0⟩ := by
  refine ⟨?_, ?_, ?_⟩
  · have h := c5_cutoff_stop.2.2 [] today0 cutoff0 [row0, rowOld, row0] [some [row0]]
      [⟨⟨"123", "hello", "", "", "unknown", "2024-03-08", "10:00:00",
          "2024-03-08T10:00:00", 0, 0, 0, "https://gall.dcinside.com/board/1"⟩,
        ⟨2024, 3, 8, 10, 0, 0⟩⟩]
      ⟨⟨"77", "hello", "", "", "unknown", "2024-01-01", "08:00:00",
          "2024-01-01T08:00:00", 0, 0, 0, "https://gall.dcinside.com/board/1"⟩,
        ⟨2024, 1, 1, 8, 0, 0⟩⟩
      [⟨⟨"123", "hello", "", "", "unknown", "2024-03-08", "10:00:00",
          "2024-03-08T10:00:00", 0, 0, 0, "https://gall.dcinside.com/board/1"⟩,
        ⟨2024, 3, 8, 10, 0, 0⟩⟩]
      (by decide) (by decide) (by decide) (by decide)
    rw [h]
    decide
  · exact c5_cutoff_stop.1 [] cutoff0 pdFresh [] [] false 2 (by decide) (by decide)
  · have h := c5_cutoff_stop.2.1 ["9"] cutoff0 pdOld [pdFresh] [] false 2
      (by decide) (by decide)
    exact h


/-! ## Calendar arithmetic -/

lemma fd_diff (y : ℤ) : 365 ≤ firstDayOrd (y + 1) - firstDayOrd y ∧
    firstDayOrd (y + 1) - firstDayOrd y ≤ 366 := by
  unfold firstDayOrd daysBeforeYear
  omega

lemma w1m_facts (y : ℤ) : (isoweek1monday y - 1) % 7 = 0 ∧
    firstDayOrd y - 3 ≤ isoweek1monday y ∧ isoweek1monday y ≤ firstDayOrd y + 3 := by
  unfold isoweek1monday
  split_ifs <;> omega

lemma isLeap_iff (y : ℤ) : isLeap y = true ↔ (y % 4 = 0 ∧ (y % 100 ≠ 0 ∨ y % 400 = 0)) := by
  unfold isLeap
  simp [Bool.and_eq_true, Bool.or_eq_true, beq_iff_eq, bne_iff_ne]

lemma validB_fields (t : DateTime) (h : t.ValidB = true) :
    1 ≤ t.year ∧ t.year ≤ 9999 ∧ 1 ≤ t.month ∧ t.month ≤ 12 ∧
    1 ≤ t.day ∧ t.day ≤ daysInMonth t.year t.month ∧
    0 ≤ t.hour ∧ t.hour ≤ 23 ∧ 0 ≤ t.minute ∧ t.minute ≤ 59 ∧
    0 ≤ t.second ∧ t.second ≤ 59 := by
  unfold DateTime.ValidB at h
  simp only [Bool.and_eq_true, decide_eq_true_eq] at h
  tauto

lemma dby_diff_leap (y : ℤ) : daysBeforeYear (y + 1) - daysBeforeYear y =
    365 + (if isLeap y = true then 1 else 0) := by
  unfold daysBeforeYear
  simp only [isLeap_iff]
  split_ifs <;> omega

set_option maxHeartbeats 1000000 in
lemma dbm_bounds (y m : ℤ) (h1 : 1 ≤ m) (h2 : m ≤ 12) :
    0 ≤ daysBeforeMonth y m ∧
    daysBeforeMonth y m + daysInMonth y m ≤ 365 + (if isLeap y = true then 1 else 0) := by
  unfold daysBeforeMonth dbmTable daysInMonth daysInMonthRaw
  split_ifs <;> first | omega | tauto

lemma ord_range (t : DateTime) (h : t.ValidB = true) :
    firstDayOrd t.year ≤ t.toOrd ∧ t.toOrd < firstDayOrd (t.year + 1) := by
  obtain ⟨h1, h2, h3, h4, h5, h6, -⟩ := validB_fields t h
  have hb := dbm_bounds t.year t.month h3 h4
  have hd := dby_diff_leap t.year
  unfold DateTime.toOrd firstDayOrd
  split_ifs at hb hd <;> omega

/-- The ISO label of a valid date determines — through `isoweek1monday` — the
Monday of the date's calendar week, together with the bounds needed to read
the label off the `week_id` string. -/
lemma iso_monday (t : DateTime) (h : t.ValidB = true) (iy iw idow : ℤ)
    (heq : isocalendarOrd t.year t.toOrd = (iy, iw, idow)) :
    isoweek1monday iy + 7 * (iw - 1) = t.toOrd - weekdayOrd t.toOrd ∧
    1 ≤ iw ∧ iw ≤ 54 ∧ 0 ≤ iy := by
  have hy : 1 ≤ t.year := (validB_fields t h).1
  obtain ⟨hlo, hhi⟩ := ord_range t h
  have hw0 := w1m_facts (t.year - 1)
  have hw1 := w1m_facts t.year
  have hw2 := w1m_facts (t.year + 1)
  have hf0 := fd_diff (t.year - 1)
  have hf1 := fd_diff t.year
  have e0 : t.year - 1 + 1 = t.year := by ring
  rw [e0] at hf0
  unfold isocalendarOrd at heq
  unfold weekdayOrd
  split_ifs at heq with h1 h2
  · injection heq with ha hbc
    injection hbc with hb hc
    subst ha; subst hb
    refine ⟨?_, ?_, ?_, ?_⟩ <;> omega
  · injection heq with ha hbc
    injection hbc with hb hc
    subst ha; subst hb
    refine ⟨?_, ?_, ?_, ?_⟩ <;> omega
  · injection heq with ha hbc
    injection hbc with hb hc
    subst ha; subst hb
    refine ⟨?_, ?_, ?_, ?_⟩ <;> omega

lemma monday_facts (o : ℤ) : weekdayOrd (o - weekdayOrd o) = 0 ∧
    o - weekdayOrd o ≤ o ∧ o ≤ o - weekdayOrd o + 6 := by
  unfold weekdayOrd
  omega

/-! ## Injectivity of the decimal renderings -/

lemma digitVal_digitChar : ∀ d : ℕ, d < 10 → digitVal (Nat.digitChar d) = d := by decide

lemma digitsVal_append (l : List Char) (c : Char) :
    digitsVal (l ++ [c]) = digitsVal l * 10 + digitVal c := by
  unfold digitsVal
  rw [List.foldl_append]
  rfl

lemma natDigitsAux_val : ∀ (fuel n : ℕ), n < 10 ^ fuel →
    digitsVal (natDigitsAux fuel n) = n := by
  intro fuel
  induction fuel with
  | zero =>
    intro n h
    have : n = 0 := by simpa using h
    subst this
    rfl
  | succ f ih =>
    intro n h
    simp only [natDigitsAux]
    split_ifs with h10
    · show digitsVal [Nat.digitChar n] = n
      unfold digitsVal
      simp [digitVal_digitChar n h10]
    · rw [digitsVal_append, ih (n / 10) (by rw [pow_succ] at h; omega),
        digitVal_digitChar (n % 10) (by omega)]
      omega

lemma natDigits_val (n : ℕ) : digitsVal (natDigits n) = n := by
  unfold natDigits
  refine natDigitsAux_val (n + 1) n ?_
  calc n < 10 ^ n := Nat.lt_pow_self (by norm_num) n
    _ ≤ 10 ^ (n + 1) := Nat.pow_le_pow_right (by norm_num) (Nat.le_succ n)

lemma digitsVal_replicate (k : ℕ) (l : List Char) :
    digitsVal (List.replicate k '0' ++ l) = digitsVal l := by
  induction k with
  | zero => simp
  | succ m ih =>
    rw [List.replicate_succ, List.cons_append]
    unfold digitsVal at ih ⊢
    simp only [List.foldl_cons]
    have h0 : (0 : ℕ) * 10 + digitVal '0' = 0 := by decide
    rw [h0]
    exact ih

lemma padNat_val (w n : ℕ) : digitsVal (padNat w n).data = n := by
  show digitsVal (List.replicate _ '0' ++ natDigits n) = n
  rw [digitsVal_replicate]
  exact natDigits_val n

lemma natDigitsAux_len1 (fuel n : ℕ) (h : n < 10) : (natDigitsAux fuel n).length ≤ 1 := by
  cases fuel with
  | zero => simp [natDigitsAux]
  | succ f => simp [natDigitsAux, h]

lemma natDigitsAux_len2 (fuel n : ℕ) (h : n < 100) : (natDigitsAux fuel n).length ≤ 2 := by
  cases fuel with
  | zero => simp [natDigitsAux]
  | succ f =>
    simp only [natDigitsAux]
    split_ifs with h10
    · simp
    · rw [List.length_append]
      have hl := natDigitsAux_len1 f (n / 10) (by omega)
      simp only [List.length_singleton]
      omega

lemma padNat2_len (n : ℕ) (h : n < 100) : ((padNat 2 n).data).length = 2 := by
  show (List.replicate (2 - (natDigits n).length) '0' ++ natDigits n).length = 2
  rw [List.length_append, List.length_replicate]
  have h2 : (natDigits n).length ≤ 2 := natDigitsAux_len2 (n + 1) n h
  omega

lemma intRepr_nonneg (z : ℤ) (h : 0 ≤ z) : intRepr z = fmtNat z.natAbs := by
  unfold intRepr
  rw [if_neg (by omega)]

lemma weekIdStr_inj (y1 y2 w1 w2 : ℤ) (hy1 : 0 ≤ y1) (hy2 : 0 ≤ y2)
    (hw1 : 0 ≤ w1) (hw1b : w1 < 100) (hw2 : 0 ≤ w2) (hw2b : w2 < 100)
    (h : weekIdStr y1 w1 = weekIdStr y2 w2) : y1 = y2 ∧ w1 = w2 := by
  unfold weekIdStr at h
  rw [intRepr_nonneg _ hy1, intRepr_nonneg _ hy2] at h
  have hd := congrArg String.data h
  rw [String.data_append, String.data_append, String.data_append, String.data_append,
    List.append_assoc, List.append_assoc] at hd
  have hw1n : w1.toNat < 100 := by omega
  have hw2n : w2.toNat < 100 := by omega
  have hlen : ("_W".data ++ (padNat 2 w1.toNat).data).length =
      ("_W".data ++ (padNat 2 w2.toNat).data).length := by
    rw [List.length_append, List.length_append, padNat2_len _ hw1n, padNat2_len _ hw2n]
  obtain ⟨ha, hb⟩ := List.append_inj' hd hlen
  constructor
  · have hv := congrArg digitsVal ha
    have e1 : (fmtNat y1.natAbs).data = natDigits y1.natAbs := rfl
    have e2 : (fmtNat y2.natAbs).data = natDigits y2.natAbs := rfl
    rw [e1, e2, natDigits_val, natDigits_val] at hv
    omega
  · have hp : (padNat 2 w1.toNat).data = (padNat 2 w2.toNat).data :=
      List.append_cancel_left hb
    have hv := congrArg digitsVal hp
    rw [padNat_val, padNat_val] at hv
    omega

/-! ## Parsed datetimes are valid -/

lemma mkValid_valid (y mo d h mi s : ℤ) (t : DateTime)
    (heq : mkValid y mo d h mi s = some t) : t.ValidB = true := by
  unfold mkValid at heq
  split_ifs at heq with hv
  injection heq with h'
  rw [← h']
  exact hv

lemma strptimeISO_valid (s : String) (d : DateTime) (h : strptimeISO s = some d) :
    d.ValidB = true := by
  unfold strptimeISO at h
  split at h
  · split_ifs at h with hc
    exact mkValid_valid _ _ _ _ _ _ _ h
  · exact absurd h (by simp)

/-- Equal `week_id` strings of valid dates force equal week Mondays. -/
lemma weekid_monday (t t' : DateTime) (ht : t.ValidB = true) (ht' : t'.ValidB = true)
    (h : (get_week_info t).week_id = (get_week_info t').week_id) :
    t.toOrd - weekdayOrd t.toOrd = t'.toOrd - weekdayOrd t'.toOrd := by
  obtain ⟨hm, hlo, hhi, hy⟩ := iso_monday t ht (isocalendarOrd t.year t.toOrd).1
    (isocalendarOrd t.year t.toOrd).2.1 (isocalendarOrd t.year t.toOrd).2.2 rfl
  obtain ⟨hm', hlo', hhi', hy'⟩ := iso_monday t' ht' (isocalendarOrd t'.year t'.toOrd).1
    (isocalendarOrd t'.year t'.toOrd).2.1 (isocalendarOrd t'.year t'.toOrd).2.2 rfl
  have hids : weekIdStr (isocalendarOrd t.year t.toOrd).1 (isocalendarOrd t.year t.toOrd).2.1 =
      weekIdStr (isocalendarOrd t'.year t'.toOrd).1 (isocalendarOrd t'.year t'.toOrd).2.1 := h
  obtain ⟨hyy, hww⟩ := weekIdStr_inj _ _ _ _ hy hy' (by omega) (by omega) (by omega) (by omega) hids
  rw [hyy, hww] at hm
  omega


/-! ## Grouping lemmas for `organize_by_week` -/

lemma lookupW_addToWeek_same (ws : List (String × WeekGroup)) (wid : String)
    (info : WeekInfo) (p : Post) :
    lookupW wid (addToWeek ws wid info p) =
      some (match lookupW wid ws with
            | some g => ⟨g.info, g.posts ++ [p]⟩
            | none => ⟨info, [p]⟩) := by
  induction ws with
  | nil => simp [addToWeek, lookupW]
  | cons kg rest ih =>
    obtain ⟨k, g⟩ := kg
    unfold addToWeek
    split_ifs with hk
    · subst hk
      simp [lookupW]
    · unfold lookupW
      rw [if_neg hk, if_neg hk, ih]

lemma lookupW_addToWeek_other (ws : List (String × WeekGroup)) (wid k : String)
    (info : WeekInfo) (p : Post) (hk : k ≠ wid) :
    lookupW k (addToWeek ws wid info p) = lookupW k ws := by
  induction ws with
  | nil => simp [addToWeek, lookupW, Ne.symm hk]
  | cons kg rest ih =>
    obtain ⟨k', g⟩ := kg
    unfold addToWeek
    split_ifs with hk'
    · subst hk'
      unfold lookupW
      rw [if_neg (Ne.symm hk), if_neg (Ne.symm hk)]
    · unfold lookupW
      by_cases hkk : k' = k
      · rw [if_pos hkk, if_pos hkk]
      · rw [if_neg hkk, if_neg hkk, ih]

lemma weeksOK_addToWeek (ws : List (String × WeekGroup)) (hws : WeeksOK ws)
    (d : DateTime) (hd : d.ValidB = true) (p : Post) :
    WeeksOK (addToWeek ws (get_week_info d).week_id (get_week_info d) p) := by
  intro k g hk
  by_cases hkw : k = (get_week_info d).week_id
  · subst hkw
    rw [lookupW_addToWeek_same] at hk
    injection hk with hk
    cases hcase : lookupW (get_week_info d).week_id ws with
    | some g0 =>
      rw [hcase] at hk
      obtain ⟨d0, hd0, hinfo, hkey⟩ := hws _ _ hcase
      refine ⟨d0, hd0, ?_, hkey⟩
      rw [← hk, ← hinfo]
    | none =>
      rw [hcase] at hk
      exact ⟨d, hd, by rw [← hk], rfl⟩
  · rw [lookupW_addToWeek_other ws _ k _ p hkw] at hk
    exact hws k g hk

lemma organizeAux_OK : ∀ (ps : List Post) (ws out : List (String × WeekGroup)),
    WeeksOK ws → organizeAux ps ws = some out → WeeksOK out := by
  intro ps
  induction ps with
  | nil =>
    intro ws out hws h
    injection h with h
    rw [← h]
    exact hws
  | cons p rest ih =>
    intro ws out hws h
    unfold organizeAux at h
    cases hs : strptimeISO p.datetime with
    | none => rw [hs] at h; cases h
    | some d =>
      rw [hs] at h
      exact ih _ out (weeksOK_addToWeek ws hws d (strptimeISO_valid _ _ hs) p) h

lemma organizeAux_mono : ∀ (ps : List Post) (ws out : List (String × WeekGroup))
    (k : String) (g : WeekGroup),
    organizeAux ps ws = some out → lookupW k ws = some g →
    ∃ g', lookupW k out = some g' ∧ g'.info = g.info ∧ ∀ q ∈ g.posts, q ∈ g'.posts := by
  intro ps
  induction ps with
  | nil =>
    intro ws out k g h hg
    injection h with h
    rw [← h]
    exact ⟨g, hg, rfl, fun q hq => hq⟩
  | cons p rest ih =>
    intro ws out k g h hg
    unfold organizeAux at h
    cases hs : strptimeISO p.datetime with
    | none => rw [hs] at h; cases h
    | some d =>
      rw [hs] at h
      by_cases hk : k = (get_week_info d).week_id
      · subst hk
        have hadd := lookupW_addToWeek_same ws (get_week_info d).week_id (get_week_info d) p
        rw [hg] at hadd
        obtain ⟨g', hg', hinfo, hsub⟩ := ih _ out _ _ h hadd
        refine ⟨g', hg', by rw [hinfo], fun q hq => hsub q ?_⟩
        show q ∈ g.posts ++ [p]
        exact List.mem_append_left _ hq
      · have hadd := lookupW_addToWeek_other ws (get_week_info d).week_id k (get_week_info d) p hk
        exact ih _ out k g h (by rw [hadd]; exact hg)

lemma organizeAux_mem : ∀ (ps : List Post) (ws out : List (String × WeekGroup))
    (q : Post) (d : DateTime),
    organizeAux ps ws = some out → q ∈ ps → strptimeISO q.datetime = some d →
    ∃ g, lookupW (get_week_info d).week_id out = some g ∧ q ∈ g.posts := by
  intro ps
  induction ps with
  | nil =>
    intro ws out q d h hq
    exact absurd hq (List.not_mem_nil q)
  | cons p rest ih =>
    intro ws out q d h hq hs
    unfold organizeAux at h
    rcases List.mem_cons.mp hq with rfl | hq'
    · rw [hs] at h
      have hadd := lookupW_addToWeek_same ws (get_week_info d).week_id (get_week_info d) q
      obtain ⟨g', hg', hinfo, hsub⟩ := organizeAux_mono rest _ out _ _ h hadd
      refine ⟨g', hg', hsub q ?_⟩
      cases hcase : lookupW (get_week_info d).week_id ws with
      | some g0 => simp [hcase]
      | none => simp [hcase]
    · cases hs' : strptimeISO p.datetime with
      | none => rw [hs'] at h; cases h
      | some d' =>
        rw [hs'] at h
        exact ih _ out q d h hq' hs

/-! ## C8: partition correctness -/

/-- C8: every record that `organize_by_week` places is filed under the week id
computed from its own `datetime`; the group's `week` field equals that id, and
the group's `week_start`/`week_end` are the `%Y-%m-%d` renderings of the
Monday and the Sunday (Monday + 6) of the record's own week — the Monday has
weekday 0 and brackets the record's date. -/
theorem c8_partition (posts : List Post) (out : List (String × WeekGroup)) (p : Post)
    (d : DateTime) (horg : organize_by_week posts = some out) (hp : p ∈ posts)
    (hs : strptimeISO p.datetime = some d) :
    ∃ g, lookupW (get_week_info d).week_id out = some g ∧ p ∈ g.posts ∧
      g.info.week_id = (get_week_info d).week_id ∧
      g.info.week_start = fmtDateOrd (d.toOrd - weekdayOrd d.toOrd) ∧
      g.info.week_end = fmtDateOrd (d.toOrd - weekdayOrd d.toOrd + 6) ∧
      weekdayOrd (d.toOrd - weekdayOrd d.toOrd) = 0 ∧
      d.toOrd - weekdayOrd d.toOrd ≤ d.toOrd ∧
      d.toOrd ≤ d.toOrd - weekdayOrd d.toOrd + 6 := by
  obtain ⟨g, hg, hmem⟩ := organizeAux_mem posts [] out p d horg hp hs
  have hok : WeeksOK out := by
    refine organizeAux_OK posts [] out ?_ horg
    intro k g0 h0
    exact absurd h0 (by simp [lookupW])
  obtain ⟨d', hd', hinfo, hkey⟩ := hok _ _ hg
  have hvd := strptimeISO_valid _ _ hs
  have hmon := weekid_monday d' d hd' hvd hkey.symm
  refine ⟨g, hg, hmem, ?_, ?_, ?_, (monday_facts d.toOrd).1,
    (monday_facts d.toOrd).2.1, (monday_facts d.toOrd).2.2⟩
  · rw [hinfo]
    exact hkey.symm
  · rw [hinfo]
    show fmtDateOrd (d'.toOrd - weekdayOrd d'.toOrd) = fmtDateOrd (d.toOrd - weekdayOrd d.toOrd)
    rw [hmon]
  · rw [hinfo]
    show fmtDateOrd (d'.toOrd - weekdayOrd d'.toOrd + 6) =
      fmtDateOrd (d.toOrd - weekdayOrd d.toOrd + 6)
    rw [hmon]

/-- Witness for C8 at a concrete one-record batch. -/
theorem c8_witness :
    ∃ g, lookupW (get_week_info exampleDT).week_id exampleWeeks = some g ∧
      examplePost ∈ g.posts ∧
      g.info.week_id = (get_week_info exampleDT).week_id ∧
      g.info.week_start = fmtDateOrd (exampleDT.toOrd - weekdayOrd exampleDT.toOrd) ∧
      g.info.week_end = fmtDateOrd (exampleDT.toOrd - weekdayOrd exampleDT.toOrd + 6) ∧
      weekdayOrd (exampleDT.toOrd - weekdayOrd exampleDT.toOrd) = 0 ∧
      exampleDT.toOrd - weekdayOrd exampleDT.toOrd ≤ exampleDT.toOrd ∧
      exampleDT.toOrd ≤ exampleDT.toOrd - weekdayOrd exampleDT.toOrd + 6 :=
  c8_partition [examplePost] exampleWeeks examplePost exampleDT (by decide)
    (List.mem_cons_self _ _) (by decide)


/-! ## C1: the global dedup invariant -/

lemma processRows_mem (ids : List String) (cutoff today : DateTime) :
    ∀ (rows : List Row) (s : CrawlState) (q : PostData),
      q ∈ (processRows ids cutoff today rows s).allPosts →
      q ∈ s.allPosts ∨ q.post.post_id ∉ ids := by
  intro rows
  induction rows with
  | nil => intro s q hq; exact Or.inl hq
  | cons row rest ih =>
    intro s q hq
    cases hext : extract_post_data row today with
    | none =>
      simp only [processRows, hext] at hq
      exact ih s q hq
    | some p =>
      simp only [processRows, hext] at hq
      split_ifs at hq with hmem hstop hdt
      · exact Or.inl hq
      · rcases ih _ q hq with h | h
        · exact Or.inl h
        · exact Or.inr h
      · rcases ih _ q hq with h | h
        · rcases List.mem_append.mp h with h' | h'
          · exact Or.inl h'
          · refine Or.inr ?_
            rw [List.mem_singleton.mp h']
            exact hmem
        · exact Or.inr h
      · exact Or.inl hq

lemma crawlPages_mem (ids : List String) (cutoff today : DateTime) :
    ∀ (pages : List (Option (List Row))) (s : CrawlState) (q : PostData),
      q ∈ crawlPages ids cutoff today pages s →
      q ∈ s.allPosts ∨ q.post.post_id ∉ ids := by
  intro pages
  induction pages with
  | nil => intro s q hq; exact Or.inl hq
  | cons fetch rest ih =>
    intro s q hq
    cases fetch with
    | none =>
      simp only [crawlPages] at hq
      exact Or.inl hq
    | some rows =>
      cases rows with
      | nil =>
        simp only [crawlPages] at hq
        exact Or.inl hq
      | cons r rs =>
        simp only [crawlPages] at hq
        split_ifs at hq
        · exact processRows_mem ids cutoff today _ s q hq
        · rcases ih _ q hq with h | h
          · exact processRows_mem ids cutoff today _ s q h
          · exact Or.inr h

/-- Every record a run collects has an id outside the archive baseline. -/
lemma crawl_fresh (ids : List String) (pages : List (Option (List Row)))
    (today cutoff : DateTime) (q : Post)
    (hq : q ∈ crawl_posts ids pages today cutoff) : q.post_id ∉ ids := by
  unfold crawl_posts at hq
  obtain ⟨pd, hpd, rfl⟩ := List.mem_map.mp hq
  rcases crawlPages_mem ids cutoff today pages ⟨[], false, 0⟩ pd hpd with h | h
  · exact absurd h (List.not_mem_nil pd)
  · exact h

lemma addToWeek_flat_perm (ws : List (String × WeekGroup)) (wid : String)
    (info : WeekInfo) (p : Post) :
    List.Perm (groupPosts (addToWeek ws wid info p)) (groupPosts ws ++ [p]) := by
  induction ws with
  | nil =>
    show List.Perm (groupPosts [(wid, ⟨info, [p]⟩)]) ([] ++ [p])
    simp [groupPosts]
  | cons kg rest ih =>
    obtain ⟨k, g⟩ := kg
    unfold addToWeek
    split_ifs with hk
    · simp only [groupPosts, List.flatMap_cons]
      rw [List.append_assoc, List.append_assoc]
      exact List.Perm.append_left g.posts List.perm_append_comm
    · simp only [groupPosts, List.flatMap_cons] at ih ⊢
      rw [List.append_assoc]
      exact List.Perm.append_left g.posts ih

lemma organizeAux_flat_perm : ∀ (ps : List Post) (ws out : List (String × WeekGroup)),
    organizeAux ps ws = some out →
    List.Perm (groupPosts out) (groupPosts ws ++ ps) := by
  intro ps
  induction ps with
  | nil =>
    intro ws out h
    injection h with h
    rw [← h, List.append_nil]
  | cons p rest ih =>
    intro ws out h
    unfold organizeAux at h
    cases hs : strptimeISO p.datetime with
    | none => rw [hs] at h; cases h
    | some d =>
      rw [hs] at h
      have h1 := ih _ out h
      have h2 := addToWeek_flat_perm ws (get_week_info d).week_id (get_week_info d) p
      refine h1.trans ?_
      refine (h2.append_right rest).trans ?_
      rw [List.append_assoc, List.singleton_append]

lemma allIds_cons (k : String) (v : WeekFile) (rest : List (String × WeekFile)) :
    allIds ((k, v) :: rest) = postIds v.posts ++ allIds rest := rfl

lemma allIds_storeSet_none (arch : List (String × WeekFile)) (wid : String)
    (f : WeekFile) (h : lookupF wid arch = none) :
    allIds (storeSet arch wid f) = allIds arch ++ postIds f.posts := by
  induction arch with
  | nil => simp [storeSet, allIds]
  | cons kv rest ih =>
    obtain ⟨k, v⟩ := kv
    unfold lookupF at h
    split_ifs at h with hk
    unfold storeSet
    rw [if_neg hk, allIds_cons, allIds_cons, ih h, List.append_assoc]

lemma allIds_storeSet_some (arch : List (String × WeekFile)) (wid : String)
    (f e : WeekFile) (h : lookupF wid arch = some e) :
    (↑(allIds (storeSet arch wid f)) : Multiset String) + ↑(postIds e.posts) =
      ↑(allIds arch) + ↑(postIds f.posts) := by
  induction arch with
  | nil => simp [lookupF] at h
  | cons kv rest ih =>
    obtain ⟨k, v⟩ := kv
    unfold lookupF at h
    unfold storeSet
    split_ifs at h ⊢ with hk
    · injection h with h
      rw [← h, allIds_cons, allIds_cons]
      rw [← Multiset.coe_add, ← Multiset.coe_add]
      abel
    · rw [allIds_cons, allIds_cons]
      rw [← Multiset.coe_add, ← Multiset.coe_add]
      rw [add_assoc, ih h, ← add_assoc]

lemma lookupF_ids_sub (arch : List (String × WeekFile)) (wid : String)
    (e : WeekFile) (h : lookupF wid arch = some e) :
    ∀ i ∈ postIds e.posts, i ∈ allIds arch := by
  induction arch with
  | nil => simp [lookupF] at h
  | cons kv rest ih =>
    obtain ⟨k, v⟩ := kv
    unfold lookupF at h
    split_ifs at h with hk
    · injection h with h
      rw [← h]
      intro i hi
      rw [allIds_cons]
      exact List.mem_append_left _ hi
    · intro i hi
      rw [allIds_cons]
      exact List.mem_append_right _ (ih h i hi)

/-- When the incoming batch is disjoint from the whole archive, a week merge
adds exactly the batch's ids to the archive (as a multiset). -/
lemma merge_week_ids (arch : List (String × WeekFile)) (wid : String)
    (info : WeekInfo) (newPosts : List Post) (now : String)
    (hdisj : ∀ i ∈ postIds newPosts, i ∉ allIds arch) :
    (↑(allIds (merge_week arch wid info newPosts now)) : Multiset String) =
      ↑(allIds arch) + ↑(postIds newPosts) := by
  have hsort : List.Perm (postIds (sortDesc (mergedPosts arch wid newPosts)))
      (postIds (mergedPosts arch wid newPosts)) :=
    postIds_perm (sortDesc_perm _)
  have hmw : merge_week arch wid info newPosts now = storeSet arch wid
      { create_week_structure info now with
        posts := sortDesc (mergedPosts arch wid newPosts),
        total_posts := (sortDesc (mergedPosts arch wid newPosts)).length } := rfl
  have hposts : ({ create_week_structure info now with
        posts := sortDesc (mergedPosts arch wid newPosts),
        total_posts := (sortDesc (mergedPosts arch wid newPosts)).length } : WeekFile).posts =
      sortDesc (mergedPosts arch wid newPosts) := rfl
  cases hl : lookupF wid arch with
  | none =>
    have hm : mergedPosts arch wid newPosts = newPosts := by
      unfold mergedPosts
      rw [hl]
    rw [hmw, allIds_storeSet_none arch wid _ hl, hposts, ← Multiset.coe_add]
    congr 1
    rw [Multiset.coe_eq_coe]
    refine hsort.trans ?_
    rw [hm]
  | some e =>
    have hfil : newPosts.filter (fun p => p.post_id ∉ postIds e.posts) = newPosts := by
      rw [List.filter_eq_self]
      intro p hp
      simp only [decide_eq_true_eq]
      intro hin
      exact hdisj p.post_id (List.mem_map.mpr ⟨p, hp, rfl⟩) (lookupF_ids_sub arch wid e hl _ hin)
    have hm : mergedPosts arch wid newPosts = e.posts ++ newPosts := by
      unfold mergedPosts
      rw [hl]
      show e.posts ++ newPosts.filter (fun p => p.post_id ∉ postIds e.posts) = e.posts ++ newPosts
      rw [hfil]
    have hstore := allIds_storeSet_some arch wid
      { create_week_structure info now with
        posts := sortDesc (mergedPosts arch wid newPosts),
        total_posts := (sortDesc (mergedPosts arch wid newPosts)).length } e hl
    rw [hposts] at hstore
    have hfp : (↑(postIds (sortDesc (mergedPosts arch wid newPosts))) : Multiset String) =
        ↑(postIds e.posts) + ↑(postIds newPosts) := by
      rw [Multiset.coe_eq_coe.mpr hsort, hm]
      rw [show postIds (e.posts ++ newPosts) = postIds e.posts ++ postIds newPosts from
        List.map_append _ _ _, ← Multiset.coe_add]
    have hgoal : (↑(allIds (merge_week arch wid info newPosts now)) : Multiset String) +
        ↑(postIds e.posts) = (↑(allIds arch) + ↑(postIds newPosts)) + ↑(postIds e.posts) := by
      rw [hmw, hstore, hfp]
      abel
    exact add_right_cancel hgoal

lemma merge_and_save_ids : ∀ (weeks : List (String × WeekGroup))
    (arch : List (String × WeekFile)) (now : String),
    (allIds arch ++ postIds (groupPosts weeks)).Nodup →
    (allIds (merge_and_save arch weeks now)).Nodup := by
  intro weeks
  induction weeks with
  | nil =>
    intro arch now h
    show (allIds arch).Nodup
    simpa [groupPosts, postIds] using h
  | cons kg rest ih =>
    intro arch now h
    obtain ⟨wid, g⟩ := kg
    have hshape : postIds (groupPosts ((wid, g) :: rest)) =
        postIds g.posts ++ postIds (groupPosts rest) := by
      simp [groupPosts, postIds]
    rw [hshape] at h
    rcases List.nodup_append.mp h with ⟨hA, hGR, hdisjA⟩
    have hdisj : ∀ i ∈ postIds g.posts, i ∉ allIds arch := by
      intro i hi hiA
      exact hdisjA hiA (List.mem_append_left _ hi)
    have harch' := merge_week_ids arch wid g.info g.posts now hdisj
    show (allIds (merge_and_save (merge_week arch wid g.info g.posts now) rest now)).Nodup
    apply ih
    have hperm : List.Perm (allIds (merge_week arch wid g.info g.posts now) ++
        postIds (groupPosts rest)) ((allIds arch ++ postIds g.posts) ++ postIds (groupPosts rest)) := by
      rw [← Multiset.coe_eq_coe, ← Multiset.coe_add, ← Multiset.coe_add, harch',
        ← Multiset.coe_add]
    refine hperm.nodup_iff.mpr ?_
    rw [List.append_assoc]
    exact h

/-- C1 counterexample: duplicate detection is only against the pre-run
baseline, so a run that sees the same row on two pages collects the same
`post_id` twice, and the merge writes a WeekFile holding that id twice. -/
theorem c1_counterexample :
    ¬ (postIds (crawl_posts (allIds ([] : List (String × WeekFile)))
        [some [row0], some [row0]] today0 cutoff0)).Nodup ∧
    ¬ (allIds (runOnce [] [some [row0], some [row0]] today0 cutoff0
        "2024-03-10T12:00:00+09:00")).Nodup := by
  constructor
  · decide
  · decide

/-- C1 amended: provided a single run's collected records carry pairwise
distinct ids, a run preserves global id-uniqueness across the union of all
WeekFiles (collected ids are always fresh relative to the baseline, and the
merge then keeps every file's ids disjoint from every other's). -/
theorem c1_global_dedup (arch : List (String × WeekFile))
    (pages : List (Option (List Row))) (today cutoff : DateTime) (now : String)
    (hGU : (allIds arch).Nodup)
    (hrun : (postIds (crawl_posts (allIds arch) pages today cutoff)).Nodup) :
    (allIds (runOnce arch pages today cutoff now)).Nodup := by
  unfold runOnce
  cases horg : organize_by_week (crawl_posts (allIds arch) pages today cutoff) with
  | none => exact hGU
  | some weeks =>
    apply merge_and_save_ids
    have hperm : List.Perm (groupPosts weeks)
        (crawl_posts (allIds arch) pages today cutoff) := by
      have hp := organizeAux_flat_perm _ [] weeks horg
      simpa [groupPosts] using hp
    have hpid := postIds_perm hperm
    rw [List.nodup_append]
    refine ⟨hGU, hpid.nodup_iff.mpr hrun, ?_⟩
    intro i hiA hiG
    have hiC := hpid.mem_iff.mp hiG
    obtain ⟨q, hq, rfl⟩ := List.mem_map.mp hiC
    exact crawl_fresh _ _ _ _ q hq hiA

/-- Witness for the amended C1: a concrete run against the empty archive. -/
theorem c1_witness :
    (allIds (runOnce [] [some [row0]] today0 cutoff0
      "2024-03-10T12:00:00+09:00")).Nodup :=
  c1_global_dedup [] [some [row0]] today0 cutoff0 "2024-03-10T12:00:00+09:00"
    (by decide) (by decide)

end DC
